import Mathlib

/-! The libvpx decode adapter `libvpxdec.c` (plain and alpha variants).

A shallow embedding of `libavcodec/libvpxdec.c`: `vpx_init`, `vp8_decode`,
`vp8alpha_decode`, `vp8_free`, `vp8alpha_free`.

* Memory is modelled by byte buffers addressed by integer offsets; a pointer is a
  buffer (or NULL) together with an offset.  An access outside its buffer, a
  dereference of NULL and a failed `av_assert0` end the call in `Outcome.crash`.
* The two libvpx engines are opaque: an engine is a deterministic state machine
  whose answer to a feed is a function of everything it has been fed so far.
* The host (`ff_set_dimensions`, `ff_get_buffer`) is an oracle handed to each call.
* Every external call is appended to a trace, so that claims about which calls
  happen, with which arguments and in which order, can be stated.
-/

namespace LibVpxDec


/-! ## Memory -/

/-- A byte buffer: `size` addressable bytes, contents read through `byte`. -/
structure Buffer where
  size : Nat
  byte : Int → Nat

/-- The `n` bytes starting at offset `p` all lie inside the buffer. -/
def Buffer.inb (b : Buffer) (p : Int) (n : Nat) : Prop :=
  0 ≤ p ∧ p + (n : Int) ≤ (b.size : Int)

instance (b : Buffer) (p : Int) (n : Nat) : Decidable (b.inb p n) := by
  unfold Buffer.inb; exact inferInstance

/-- C `memset(p, v, n)` on a buffer: `none` when a written byte is outside it. -/
def memset (b : Buffer) (p : Int) (v : Nat) (n : Nat) : Option Buffer :=
  if n = 0 then some b
  else if b.inb p n then
    some { b with byte := fun j => if p ≤ j ∧ j < p + (n : Int) then v else b.byte j }
  else none

/-- C `memcpy(dst + dp, src + sp, n)`: `none` when either range leaves its buffer. -/
def memcpy (dst : Buffer) (dp : Int) (src : Buffer) (sp : Int) (n : Nat) : Option Buffer :=
  if n = 0 then some dst
  else if dst.inb dp n ∧ src.inb sp n then
    some { dst with
           byte := fun j => if dp ≤ j ∧ j < dp + (n : Int) then src.byte (sp + (j - dp))
                            else dst.byte j }
  else none

/-- One plane of an image or frame: the data pointer (`mem = none` is NULL, otherwise
the buffer it points into and the offset `off` inside it) and the line size. -/
structure Plane where
  mem : Option Buffer
  off : Int
  linesize : Int

/-- The NULL plane of a frame that holds no buffer. -/
def Plane.null : Plane := { mem := none, off := 0, linesize := 0 }

/-- The byte at row `r`, column `c` of a plane (0 for a NULL plane). -/
def Plane.sample (p : Plane) (r c : Nat) : Nat :=
  match p.mem with
  | none => 0
  | some b => b.byte (p.off + (r : Int) * p.linesize + (c : Int))

/-! ## libvpx: images and engines -/

/-- The planar 4:2:0 format tag of `vpx/vpx_image.h` (`VPX_IMG_FMT_PLANAR | 2`). -/
def VPX_IMG_FMT_I420 : Nat := 258

/-- A decoded image (`struct vpx_image`): format tag, displayed size (`unsigned int`
fields), and the four entries of `planes[]` with their `stride[]` (Y, U, V, alpha). -/
structure vpx_image where
  fmt : Nat
  d_w : Nat
  d_h : Nat
  planeY : Plane
  planeU : Plane
  planeV : Plane
  planeA : Plane

/-- The conversion of an `unsigned int` value to `int`: the `(int)` casts of the source
and the passing of `img->d_w`, `img->d_h` to `int` parameters.  Values below 2^31 are
kept, larger ones wrap to negative values. -/
def int_cast (x : Nat) : Int :=
  if x % 2 ^ 32 < 2 ^ 31 then ((x % 2 ^ 32 : Nat) : Int) else ((x % 2 ^ 32 : Nat) : Int) - 2 ^ 32

/-- The width of the image as the adapter reads it: `(int) img->d_w`. -/
def vpx_image.width (i : vpx_image) : Int := int_cast i.d_w

/-- The height of the image as the adapter reads it: `(int) img->d_h`. -/
def vpx_image.height (i : vpx_image) : Int := int_cast i.d_h

/-- The number of rows the adapter copies for the image: `(int) img->d_h` as a count. -/
def vpx_image.rows (i : vpx_image) : Nat := i.height.toNat

/-- The number of bytes per luma row the adapter copies for the image. -/
def vpx_image.cols (i : vpx_image) : Nat := i.width.toNat

/-- The arguments of one `vpx_codec_decode` call: the buffer `data` points into
(`none` when the pointer is derived from NULL), the offset of `data` in that buffer,
and `data_sz` as the `unsigned int` the engine receives. -/
structure Feed where
  mem : Option (List Nat)
  off : Int
  data_sz : Nat
deriving DecidableEq

/-- The bytes a feed designates, when they all lie inside the buffer pointed into. -/
def Feed.bytes (f : Feed) : Option (List Nat) :=
  match f.mem with
  | none => none
  | some b =>
    if 0 ≤ f.off ∧ f.off + (f.data_sz : Int) ≤ (b.length : Int) then
      some ((b.drop f.off.toNat).take f.data_sz)
    else none

/-- What an engine answers to a feed: the status of `vpx_codec_decode` and the image
that the following `vpx_codec_get_frame` yields (`none` is NULL). -/
structure Response where
  ok : Bool
  img : Option vpx_image

/-- An opaque engine (`struct vpx_codec_ctx`): whether it is constructed and not yet
destroyed, everything fed to it so far, and its behaviour (the answer to the latest
feed as a function of the whole feed history). -/
structure vpx_codec_ctx where
  live : Bool
  fed : List Feed
  behaviour : List Feed → Response

/-- Feeding an engine (`vpx_codec_decode`): the status (`true` is `VPX_CODEC_OK`) and
the engine afterwards.  An engine that is not live rejects every feed. -/
def vpx_codec_decode (ctx : vpx_codec_ctx) (feed : Feed) : Bool × vpx_codec_ctx :=
  (ctx.live && (ctx.behaviour (ctx.fed ++ [feed])).ok, { ctx with fed := ctx.fed ++ [feed] })

/-- Pulling the first image after a feed (`vpx_codec_get_frame` with a NULL iterator). -/
def vpx_codec_get_frame (ctx : vpx_codec_ctx) : Option vpx_image :=
  (ctx.behaviour ctx.fed).img

/-- The engine library handed to `vpx_init`: whether construction of the engine in the
colour slot (`false`) or the alpha slot (`true`) with the given thread count succeeds,
and the behaviour of the engine constructed. -/
structure vpx_codec_iface where
  construct : Bool → Nat → Option (List Feed → Response)

/-- Engine construction (`vpx_codec_dec_init`): on failure the slot holds no live engine. -/
def vpx_codec_dec_init (ctx : vpx_codec_ctx) (iface : vpx_codec_iface) (slot : Bool)
    (threads : Nat) : Bool × vpx_codec_ctx :=
  match iface.construct slot threads with
  | some b => (true, { live := true, fed := [], behaviour := b })
  | none => (false, { ctx with live := false })

/-- Engine destruction (`vpx_codec_destroy`). -/
def vpx_codec_destroy (ctx : vpx_codec_ctx) : vpx_codec_ctx :=
  { ctx with live := false }

/-! ## The host side: packets, frames, codec context -/

/-- The kinds of packet side data that matter here. -/
inductive AVPacketSideDataType where
  | MATROSKA_BLOCKADDITIONAL
  | other (tag : Nat)
deriving DecidableEq

/-- One side-data element of a packet; its `size` is the length of `data`. -/
structure AVPacketSideData where
  data : List Nat
  type : AVPacketSideDataType
deriving DecidableEq

/-- A coded packet; `size` is the length of `data`, `side_data_elems` that of `side_data`. -/
structure AVPacket where
  data : List Nat
  side_data : List AVPacketSideData
deriving DecidableEq

/-- The field `avpkt->size`. -/
def AVPacket.size (p : AVPacket) : Int := (p.data.length : Int)

/-- The field `avpkt->side_data_elems`. -/
def AVPacket.side_data_elems (p : AVPacket) : Nat := p.side_data.length

/-- Modelled from the spec: the side-payload lookup (`av_packet_get_side_data` lives in
libavcodec/avpacket.c, not under src/).  It yields the data pointer and the size of the
first element of the requested type, and NULL with size 0 when there is none. -/
def av_packet_get_side_data (p : AVPacket) (t : AVPacketSideDataType) :
    Option (List Nat) × Int :=
  match p.side_data.find? (fun e => decide (e.type = t)) with
  | some e => (some e.data, (e.data.length : Int))
  | none => (none, 0)

/-- The pixel formats the adapter selects between. -/
inductive AVPixelFormat where
  | NONE
  | YUV420P
  | YUVA420P
deriving DecidableEq

/-- An output frame: size and the four `data[]` pointers with their `linesize[]`. -/
structure AVFrame where
  width : Int
  height : Int
  data0 : Plane
  data1 : Plane
  data2 : Plane
  data3 : Plane

/-- A frame that holds no buffers, as the caller passes it to a decode call. -/
def AVFrame.clean : AVFrame :=
  { width := 0, height := 0, data0 := Plane.null, data1 := Plane.null,
    data2 := Plane.null, data3 := Plane.null }

/-- The private data of the codec (`VP8Context`): the colour and the alpha engine. -/
structure VP8Context where
  decoder : vpx_codec_ctx
  decoder_alpha : vpx_codec_ctx

/-- The fields of `AVCodecContext` the adapter reads or writes. -/
structure AVCodecContext where
  width : Int
  height : Int
  thread_count : Int
  pix_fmt : AVPixelFormat
  priv_data : VP8Context

/-- The host as seen by one call: the status it gives to a dimension-change request
`(w, h)`, and the status and buffers it gives to an allocation for a frame of the
session's current `(width, height)`. -/
structure Host where
  set_dimensions : Int → Int → Int
  get_buffer : Int → Int → Int × AVFrame

/-- The external calls a run makes, in order. -/
inductive Event where
  | dec_init (alpha : Bool) (threads : Nat) (ok : Bool)
  | destroy (alpha : Bool)
  | decode (alpha : Bool) (feed : Feed) (ok : Bool)
  | get_frame (alpha : Bool) (img : Option (Nat × Nat × Nat))
  | set_dimensions (w h : Int) (ret : Int)
  | get_buffer (ret : Int)
  | image_copy (w h : Int)
  | image_copy_plane (bytewidth h : Int)
deriving DecidableEq

/-- Format tag and displayed size of a pulled image, as recorded in the trace. -/
def vpx_image.info (i : vpx_image) : Nat × Nat × Nat := (i.fmt, i.d_w, i.d_h)

/-- How a call ends: it returns a value, or it performs an invalid memory access
(NULL dereference, access outside a buffer) or fails an assertion. -/
inductive Outcome where
  | ret (v : Int)
  | crash
deriving DecidableEq

/-- Everything a decode call reads and writes: the codec context, the caller's frame,
the produced-frame flag `*got_frame`, and the trace of external calls. -/
structure Machine where
  avctx : AVCodecContext
  picture : AVFrame
  got_frame : Int
  trace : List Event

/-- Append an event to the trace. -/
def Machine.log (m : Machine) (e : Event) : Machine :=
  { m with trace := m.trace ++ [e] }

/-- The engine of a slot: `ctx->decoder` (`false`) or `ctx->decoder_alpha` (`true`). -/
def Machine.engine (m : Machine) (alpha : Bool) : vpx_codec_ctx :=
  if alpha then m.avctx.priv_data.decoder_alpha else m.avctx.priv_data.decoder

/-- Store an engine back into its slot of the context. -/
def Machine.set_engine (m : Machine) (alpha : Bool) (c : vpx_codec_ctx) : Machine :=
  { m with
    avctx :=
      { m.avctx with
        priv_data :=
          if alpha then { m.avctx.priv_data with decoder_alpha := c }
          else { m.avctx.priv_data with decoder := c } } }

/-- The errno value `EINVAL`. -/
def EINVAL : Int := 22

/-- The macro `AVERROR(e)` of libavutil/error.h. -/
def AVERROR (e : Int) : Int := -e

/-- Modelled from the spec: the "invalid coded data" error code, a negative constant
(libavutil/error.h is not under src/; the value is `-MKTAG('I','N','D','A')`). -/
def AVERROR_INVALIDDATA : Int := -1094995529

/-- The macro `FFMIN`. -/
def FFMIN (a b : Int) : Int := if a > b then b else a

/-- The macro `FFABS`, as the byte count handed to `memset`. -/
def FFABS (a : Int) : Nat := a.natAbs

/-- The macro `AV_CEIL_RSHIFT(a, 1)`, that is `-((-a) >> 1)`. -/
def AV_CEIL_RSHIFT1 (a : Int) : Int := -((-a) / 2)

/-- Modelled from the spec: a dimension-change request to the host (`ff_set_dimensions`
lives in libavcodec/utils.c, not under src/).  A successful request (status >= 0) sets
the session's width and height; a failed one clears them. -/
def ff_set_dimensions (host : Host) (w h : Int) (m : Machine) : Int × Machine :=
  let ret := host.set_dimensions w h
  (ret, { m with
          avctx := { m.avctx with width := if ret < 0 then 0 else w,
                                  height := if ret < 0 then 0 else h },
          trace := m.trace ++ [Event.set_dimensions w h ret] })

/-- Modelled from the spec: output-frame allocation by the host (`ff_get_buffer` lives
in libavcodec/decode.c, not under src/).  On success the caller's frame receives the
host's buffers and the session's current width and height. -/
def ff_get_buffer (host : Host) (m : Machine) : Int × Machine :=
  let r := host.get_buffer m.avctx.width m.avctx.height
  (r.1, { m with
          picture := if r.1 < 0 then m.picture
                     else { r.2 with width := m.avctx.width, height := m.avctx.height },
          trace := m.trace ++ [Event.get_buffer r.1] })

/-- Modelled from the spec: bytes per row of a plane of a planar 4:2:0 format
(`av_image_get_linesize` lives in libavutil/imgutils.c, not under src/): the width for
luma and alpha, the rounded-up half width for chroma, an error for a negative width. -/
def av_image_get_linesize (pix_fmt : AVPixelFormat) (width : Int) (plane : Nat) : Int :=
  match pix_fmt with
  | AVPixelFormat.NONE => AVERROR EINVAL
  | AVPixelFormat.YUV420P =>
    if width < 0 then AVERROR EINVAL
    else if plane = 0 then width
    else if plane = 1 ∨ plane = 2 then (width + 1) / 2
    else 0
  | AVPixelFormat.YUVA420P =>
    if width < 0 then AVERROR EINVAL
    else if plane = 1 ∨ plane = 2 then (width + 1) / 2
    else width

/-- The row loop of a plane copy: `height` times `memcpy` of `bytewidth` bytes, both
pointers advancing by their line size. -/
def copy_rows (bytewidth : Nat) (dst_linesize src_linesize : Int) (src : Buffer) :
    Nat → Buffer → Int → Int → Option Buffer
  | 0, dst, _, _ => some dst
  | n + 1, dst, dp, sp =>
    match memcpy dst dp src sp bytewidth with
    | none => none
    | some dst1 =>
      copy_rows bytewidth dst_linesize src_linesize src n dst1 (dp + dst_linesize)
        (sp + src_linesize)

/-- Modelled from the spec: copy of a single plane with explicit row width and row count
(`av_image_copy_plane` lives in libavutil/imgutils.c, not under src/).  Nothing is copied
when either pointer is NULL; both line sizes are asserted to cover the row width.  The
destination pointer and line size come from `dst`, the source pointer from `src`, and the
source line size is the separate argument `src_linesize`. -/
def av_image_copy_plane (dst : Plane) (src : Plane) (src_linesize : Int) (bytewidth : Nat)
    (height : Int) : Option Plane :=
  match dst.mem, src.mem with
  | some d, some s =>
    if FFABS src_linesize < bytewidth ∨ FFABS dst.linesize < bytewidth then none
    else
      match copy_rows bytewidth dst.linesize src_linesize s height.toNat d dst.off src.off with
      | none => none
      | some d1 => some { dst with mem := some d1 }
  | _, _ => some dst

/-- Modelled from the spec: copy of a whole image respecting per-plane stride
(`av_image_copy` lives in libavutil/imgutils.c, not under src/): one plane copy per
plane of the pixel format, chroma planes with the rounded-up half height. -/
def av_image_copy (dst : AVFrame) (src : vpx_image) (pix_fmt : AVPixelFormat)
    (width height : Int) : Option AVFrame :=
  match pix_fmt with
  | AVPixelFormat.NONE => some dst
  | _ =>
    if av_image_get_linesize pix_fmt width 0 < 0 then some dst
    else
      match av_image_copy_plane dst.data0 src.planeY src.planeY.linesize
              (av_image_get_linesize pix_fmt width 0).toNat height,
            av_image_copy_plane dst.data1 src.planeU src.planeU.linesize
              (av_image_get_linesize pix_fmt width 1).toNat (AV_CEIL_RSHIFT1 height),
            av_image_copy_plane dst.data2 src.planeV src.planeV.linesize
              (av_image_get_linesize pix_fmt width 2).toNat (AV_CEIL_RSHIFT1 height),
            (if pix_fmt = AVPixelFormat.YUVA420P then
               av_image_copy_plane dst.data3 src.planeA src.planeA.linesize
                 (av_image_get_linesize pix_fmt width 3).toNat height
             else some dst.data3) with
      | some p0, some p1, some p2, some p3 =>
        some { dst with data0 := p0, data1 := p1, data2 := p2, data3 := p3 }
      | _, _, _, _ => none

/-! ## The adapter: `libvpxdec.c` -/

/-- The value `vpx_init` stores in `deccfg.threads` (line 51): `FFMIN(thread_count, 16)`
converted to the `unsigned int` field. -/
def deccfg_threads (thread_count : Int) : Nat :=
  ((FFMIN thread_count 16) % 2 ^ 32).toNat

/-- The function `vpx_init` (lines 45-81): the returned status, the context afterwards and the
external calls made. -/
def vpx_init (iface : vpx_codec_iface) (bAlpha : Bool) (avctx : AVCodecContext) :
    Int × AVCodecContext × List Event :=
  let threads := deccfg_threads avctx.thread_count
  let c := vpx_codec_dec_init avctx.priv_data.decoder iface false threads
  let a1 : AVCodecContext := { avctx with priv_data := { avctx.priv_data with decoder := c.2 } }
  let t1 := [Event.dec_init false threads c.1]
  if c.1 = false then (AVERROR EINVAL, a1, t1)
  else if bAlpha then
    let a := vpx_codec_dec_init a1.priv_data.decoder_alpha iface true threads
    let a2 : AVCodecContext := { a1 with priv_data := { a1.priv_data with decoder_alpha := a.2 } }
    let t2 := t1 ++ [Event.dec_init true threads a.1]
    if a.1 = false then (AVERROR EINVAL, a2, t2)
    else (0, { a2 with pix_fmt := AVPixelFormat.YUVA420P }, t2)
  else (0, { a1 with pix_fmt := AVPixelFormat.YUV420P }, t1)

/-- The dimension check that follows a pulled image (lines 111-117, 173-179 and
203-209): `(int) img->d_w` and `(int) img->d_h` are compared with the session's width and
height, and when they differ a dimension-change request is made with `img->d_w`,
`img->d_h` converted to its `int` parameters; the first component is the error to
return, if the request failed. -/
def dimension_check (host : Host) (img : vpx_image) (m : Machine) : Option Int × Machine :=
  if img.width ≠ m.avctx.width ∨ img.height ≠ m.avctx.height then
    if (ff_set_dimensions host img.width img.height m).1 < 0 then
      (some (ff_set_dimensions host img.width img.height m).1,
       (ff_set_dimensions host img.width img.height m).2)
    else (none, (ff_set_dimensions host img.width img.height m).2)
  else (none, m)

/-- The feed of the colour engine: the whole packet payload (`avpkt->data`,
`avpkt->size`; the size is a non-negative `int`, so its conversion keeps the value). -/
def color_feed (avpkt : AVPacket) : Feed :=
  { mem := some avpkt.data, off := 0, data_sz := avpkt.data.length }

/-- Where a block of a decode function leaves control: the function returns (`done`),
or execution continues with the pulled image, NULL when there is none (`next`). -/
inductive Stage where
  | done (r : Outcome × Machine)
  | next (img : Option vpx_image) (m : Machine)

/-- The block the source repeats for the colour engine in `vp8_decode` (lines 92-117),
for the colour engine in `vp8alpha_decode` (lines 155-180) and for the alpha engine
(lines 185-210): feed the engine of the slot, return `AVERROR_INVALIDDATA` when it
rejects the feed, pull an image, and when there is one return `AVERROR_INVALIDDATA` unless
its format is I420 and run the dimension check. -/
def feed_pull_check (alpha : Bool) (host : Host) (feed : Feed) (m : Machine) : Stage :=
  let d := vpx_codec_decode (m.engine alpha) feed
  let m1 := (m.set_engine alpha d.2).log (Event.decode alpha feed d.1)
  if d.1 = false then Stage.done (Outcome.ret AVERROR_INVALIDDATA, m1)
  else
    let m2 := m1.log (Event.get_frame alpha ((vpx_codec_get_frame d.2).map vpx_image.info))
    match vpx_codec_get_frame d.2 with
    | none => Stage.next none m2
    | some img =>
      if img.fmt ≠ VPX_IMG_FMT_I420 then Stage.done (Outcome.ret AVERROR_INVALIDDATA, m2)
      else
        match dimension_check host img m2 with
        | (some err, m3) => Stage.done (Outcome.ret err, m3)
        | (none, m3) => Stage.next (some img) m3

/-- Lines 118-122 of `vp8_decode`: allocate the output frame, copy the image into it
and set the produced-frame flag. -/
def alloc_copy (host : Host) (avpkt : AVPacket) (img : vpx_image) (m : Machine) :
    Outcome × Machine :=
  if (ff_get_buffer host m).1 < 0 then
    (Outcome.ret (ff_get_buffer host m).1, (ff_get_buffer host m).2)
  else
    let m4 := (ff_get_buffer host m).2.log (Event.image_copy img.width img.height)
    match av_image_copy m4.picture img m4.avctx.pix_fmt img.width img.height with
    | none => (Outcome.crash, m4)
    | some pic => (Outcome.ret avpkt.size, { m4 with picture := pic, got_frame := 1 })

/-- The function `vp8_decode` (lines 83-125). -/
def vp8_decode (host : Host) (avpkt : AVPacket) (m : Machine) : Outcome × Machine :=
  match feed_pull_check false host (color_feed avpkt) m with
  | Stage.done r => r
  | Stage.next none m2 => (Outcome.ret avpkt.size, m2)
  | Stage.next (some img) m3 => alloc_copy host avpkt img m3

/-- The loop of lines 139-143: `rows` times `memset(pData, 0xFF, FFABS(linesize))`
followed by `pData += linesize`.  `mem` is the buffer `pData` points into (`none` for a
NULL pointer, through which only a zero-length `memset` writes nothing). -/
def fill_alpha (linesize : Int) : Nat → Option Buffer → Int → Option (Option Buffer)
  | 0, mem, _ => some mem
  | n + 1, none, pData =>
    if FFABS linesize = 0 then fill_alpha linesize n none (pData + linesize) else none
  | n + 1, some b, pData =>
    match memset b pData 0xFF (FFABS linesize) with
    | none => none
    | some b1 => fill_alpha linesize n (some b1) (pData + linesize)

/-- The feed of the alpha engine (lines 182-185): `side_data + 8` with the length
`side_data_size - 8` converted to the `unsigned int` parameter of `vpx_codec_decode`. -/
def alpha_feed (avpkt : AVPacket) : Feed :=
  { mem := (av_packet_get_side_data avpkt AVPacketSideDataType.MATROSKA_BLOCKADDITIONAL).1,
    off := 8,
    data_sz :=
      (((av_packet_get_side_data avpkt AVPacketSideDataType.MATROSKA_BLOCKADDITIONAL).2 - 8)
        % 2 ^ 32).toNat }

/-- Lines 214-235 of `vp8alpha_decode`: allocation and composition of the output frame
from the colour image `img` and the alpha image `img_alpha` (either may be NULL, and is
then dereferenced all the same). -/
def composite (host : Host) (avpkt : AVPacket) (img img_alpha : Option vpx_image)
    (m : Machine) : Outcome × Machine :=
  if (ff_get_buffer host m).1 < 0 then
    (Outcome.ret (ff_get_buffer host m).1, (ff_get_buffer host m).2)
  else
    match img with
    | none => (Outcome.crash, (ff_get_buffer host m).2)
    | some i =>
      let m4 := (ff_get_buffer host m).2.log (Event.image_copy i.width i.height)
      match av_image_copy m4.picture i m4.avctx.pix_fmt i.width i.height with
      | none => (Outcome.crash, m4)
      | some pic =>
        let m5 : Machine := { m4 with picture := pic }
        let bwidth := av_image_get_linesize AVPixelFormat.YUVA420P i.width 3
        if bwidth < 0 then (Outcome.ret (-1), m5)
        else
          match img_alpha with
          | none => (Outcome.crash, m5)
          | some a =>
            let m6 := m5.log (Event.image_copy_plane bwidth i.height)
            match av_image_copy_plane m6.picture.data3 a.planeY i.planeY.linesize
                    bwidth.toNat i.height with
            | none => (Outcome.crash, m6)
            | some p3 =>
              (Outcome.ret avpkt.size,
               { m6 with picture := { m6.picture with data3 := p3 }, got_frame := 1 })

/-- The function `vp8alpha_decode` (lines 127-236): State A when the packet has no side
data, State B otherwise. -/
def vp8alpha_decode (host : Host) (avpkt : AVPacket) (m : Machine) : Outcome × Machine :=
  if avpkt.side_data_elems = 0 then
    match (vp8_decode host avpkt m).1 with
    | Outcome.crash => vp8_decode host avpkt m
    | Outcome.ret ret =>
      if ret < 0 then vp8_decode host avpkt m
      else
        let m1 := (vp8_decode host avpkt m).2
        match fill_alpha m1.picture.data3.linesize m1.avctx.height.toNat
                m1.picture.data3.mem m1.picture.data3.off with
        | none => (Outcome.crash, m1)
        | some mem =>
          (Outcome.ret avpkt.size,
           { m1 with picture := { m1.picture with data3 := { m1.picture.data3 with mem := mem } } })
  else
    match feed_pull_check false host (color_feed avpkt) m with
    | Stage.done r => r
    | Stage.next img m3 =>
      match feed_pull_check true host (alpha_feed avpkt) m3 with
      | Stage.done r => r
      | Stage.next img_alpha m4 => composite host avpkt img img_alpha m4

/-- The function `vp8_free` (lines 238-243). -/
def vp8_free (avctx : AVCodecContext) : Int × AVCodecContext × List Event :=
  (0,
   { avctx with
     priv_data := { avctx.priv_data with decoder := vpx_codec_destroy avctx.priv_data.decoder } },
   [Event.destroy false])

/-- The function `vp8alpha_free` (lines 245-251). -/
def vp8alpha_free (avctx : AVCodecContext) : Int × AVCodecContext × List Event :=
  (0,
   { avctx with
     priv_data :=
       { decoder := vpx_codec_destroy avctx.priv_data.decoder,
         decoder_alpha := vpx_codec_destroy avctx.priv_data.decoder_alpha } },
   [Event.destroy false, Event.destroy true])

/-- The function `vp8_init` (lines 254-257). -/
def vp8_init (iface : vpx_codec_iface) (avctx : AVCodecContext) :
    Int × AVCodecContext × List Event :=
  vpx_init iface false avctx

/-- The function `vp8alpha_init` (lines 259-262). -/
def vp8alpha_init (iface : vpx_codec_iface) (avctx : AVCodecContext) :
    Int × AVCodecContext × List Event :=
  vpx_init iface true avctx

/-! ## Concrete data used by the examples below -/

/-- A buffer holding the given bytes. -/
def Buffer.ofList (l : List Nat) : Buffer :=
  { size := l.length, byte := fun j => if 0 ≤ j then l.getD j.toNat 0 else 0 }

/-- A plane whose data pointer is the start of a buffer holding the given bytes. -/
def Plane.ofList (l : List Nat) (linesize : Int) : Plane :=
  { mem := some (Buffer.ofList l), off := 0, linesize := linesize }

/-- A 2x2 I420 colour image with tightly packed planes (luma stride 2). -/
def color2x2 : vpx_image :=
  { fmt := VPX_IMG_FMT_I420, d_w := 2, d_h := 2,
    planeY := Plane.ofList [10, 11, 12, 13] 2,
    planeU := Plane.ofList [20] 1,
    planeV := Plane.ofList [30] 1,
    planeA := Plane.null }

/-- A 2x2 I420 alpha image whose luma rows are padded to a stride of 4. -/
def alpha2x2 : vpx_image :=
  { fmt := VPX_IMG_FMT_I420, d_w := 2, d_h := 2,
    planeY := Plane.ofList [200, 201, 0, 0, 202, 203, 0, 0] 4,
    planeU := Plane.ofList [128] 1,
    planeV := Plane.ofList [128] 1,
    planeA := Plane.null }

/-- A 4x4 I420 alpha image (luma stride 4). -/
def alpha4x4 : vpx_image :=
  { fmt := VPX_IMG_FMT_I420, d_w := 4, d_h := 4,
    planeY := Plane.ofList [200, 201, 202, 203, 204, 205, 206, 207,
                            208, 209, 210, 211, 212, 213, 214, 215] 4,
    planeU := Plane.ofList [128, 128, 128, 128] 2,
    planeV := Plane.ofList [128, 128, 128, 128] 2,
    planeA := Plane.null }

/-- An engine that accepts every feed and yields the given image (or none). -/
def engine_yielding (img : Option vpx_image) : vpx_codec_ctx :=
  { live := true, fed := [], behaviour := fun _ => { ok := true, img := img } }

/-- A host that grants every request and hands out zeroed, tightly packed planes. -/
def host_ok : Host :=
  { set_dimensions := fun _ _ => 0,
    get_buffer := fun w h =>
      (0, { width := w, height := h,
            data0 := Plane.ofList (List.replicate (w.toNat * h.toNat) 0) w,
            data1 := Plane.ofList (List.replicate (((w + 1) / 2).toNat * ((h + 1) / 2).toNat) 0)
                       ((w + 1) / 2),
            data2 := Plane.ofList (List.replicate (((w + 1) / 2).toNat * ((h + 1) / 2).toNat) 0)
                       ((w + 1) / 2),
            data3 := Plane.ofList (List.replicate (w.toNat * h.toNat) 0) w }) }

/-- An alpha-enabled session of size `w x h` with the given engines, a clean frame, the
produced-frame flag cleared and an empty trace. -/
def session (w h : Int) (pix_fmt : AVPixelFormat) (color alpha : vpx_codec_ctx) : Machine :=
  { avctx := { width := w, height := h, thread_count := 1, pix_fmt := pix_fmt,
               priv_data := { decoder := color, decoder_alpha := alpha } },
    picture := AVFrame.clean, got_frame := 0, trace := [] }

/-- A packet with a three-byte payload and a ten-byte block-additional side payload. -/
def packet_with_alpha : AVPacket :=
  { data := [1, 2, 3],
    side_data := [{ data := [0, 0, 0, 0, 0, 0, 0, 1, 77, 78],
                    type := AVPacketSideDataType.MATROSKA_BLOCKADDITIONAL }] }

/-- A packet with a three-byte payload and no side data. -/
def packet_plain : AVPacket := { data := [1, 2, 3], side_data := [] }

/-! ## Observations on traces -/

/-- The thread counts handed to engine construction, in call order. -/
def threads_passed : List Event → List Nat
  | [] => []
  | Event.dec_init _ t _ :: es => t :: threads_passed es
  | _ :: es => threads_passed es

/-- The feeds handed to the colour (`false`) or alpha (`true`) engine, in call order. -/
def feeds (alpha : Bool) : List Event → List Feed
  | [] => []
  | Event.decode a f _ :: es => if a = alpha then f :: feeds alpha es else feeds alpha es
  | _ :: es => feeds alpha es

/-- The dimension-change requests issued to the host, in call order. -/
def dim_requests : List Event → List (Int × Int)
  | [] => []
  | Event.set_dimensions w h _ :: es => (w, h) :: dim_requests es
  | _ :: es => dim_requests es

/-- Whether the event is an output-frame allocation request. -/
def Event.is_get_buffer : Event → Bool
  | Event.get_buffer _ => true
  | _ => false

/-- Whether the event is the destruction of an engine. -/
def Event.is_destroy : Event → Bool
  | Event.destroy _ => true
  | _ => false

/-- Whether the event is a plane copy into the output frame. -/
def Event.is_copy : Event → Bool
  | Event.image_copy _ _ => true
  | Event.image_copy_plane _ _ => true
  | _ => false

/-- Whether the event is a decode failure: an engine rejected its feed, or a pulled
image has a pixel format other than I420. -/
def Event.is_failure : Event → Bool
  | Event.decode _ _ ok => !ok
  | Event.get_frame _ (some (fmt, _, _)) => decide (fmt ≠ VPX_IMG_FMT_I420)
  | _ => false

/-- The events a call appended to the trace of the machine it started from. -/
def new_events (m : Machine) (r : Outcome × Machine) : List Event :=
  r.2.trace.drop m.trace.length

/-- The image the colour engine yields when fed this packet in this state. -/
def color_image (m : Machine) (avpkt : AVPacket) : Option vpx_image :=
  vpx_codec_get_frame (vpx_codec_decode (m.engine false) (color_feed avpkt)).2

/-- The image the alpha engine yields when fed the side payload of this packet. -/
def alpha_image (m : Machine) (avpkt : AVPacket) : Option vpx_image :=
  vpx_codec_get_frame (vpx_codec_decode (m.engine true) (alpha_feed avpkt)).2

/-- The decode entry point of the plain (`false`) or the alpha (`true`) codec. -/
def decode_fn (alpha : Bool) (host : Host) (avpkt : AVPacket) (m : Machine) :
    Outcome × Machine :=
  if alpha then vp8alpha_decode host avpkt m else vp8_decode host avpkt m

/-- An engine library whose construction succeeds in the colour slot and fails in the
alpha slot. -/
def iface_alpha_fails : vpx_codec_iface :=
  { construct := fun slot _ =>
      if slot then none else some (fun _ => { ok := true, img := none }) }

/-- An engine library whose construction always succeeds. -/
def iface_ok : vpx_codec_iface :=
  { construct := fun _ _ => some (fun _ => { ok := true, img := none }) }

/-- A slot that holds no engine yet. -/
def no_engine : vpx_codec_ctx :=
  { live := false, fed := [], behaviour := fun _ => { ok := false, img := none } }

/-- A codec context before `vpx_init`, with the host's thread count. -/
def fresh_avctx (thread_count : Int) : AVCodecContext :=
  { width := 0, height := 0, thread_count := thread_count, pix_fmt := AVPixelFormat.NONE,
    priv_data := { decoder := no_engine, decoder_alpha := no_engine } }

/-- The machine after the engine of a slot has been fed. -/
def fed (alpha : Bool) (feed : Feed) (m : Machine) : Machine :=
  (m.set_engine alpha (vpx_codec_decode (m.engine alpha) feed).2).log
    (Event.decode alpha feed (vpx_codec_decode (m.engine alpha) feed).1)

/-- The machine after the engine of a slot has been fed and its image pulled. -/
def pulled (alpha : Bool) (feed : Feed) (m : Machine) : Machine :=
  (fed alpha feed m).log
    (Event.get_frame alpha
      ((vpx_codec_get_frame (vpx_codec_decode (m.engine alpha) feed).2).map vpx_image.info))

/-- The machine after a dimension-change request for the size of `img`. -/
def resized (host : Host) (img : vpx_image) (m : Machine) : Machine :=
  (ff_set_dimensions host img.width img.height m).2

/-- The image size, as `(int) d_w` and `(int) d_h`, differs from the session's current
size. -/
def differs (img : vpx_image) (m : Machine) : Prop :=
  img.width ≠ m.avctx.width ∨ img.height ≠ m.avctx.height

/-- The machine a stage leaves behind. -/
def Stage.machine : Stage → Machine
  | Stage.done r => r.2
  | Stage.next _ m => m

/-- Events that neither allocate or copy into a frame nor destroy an engine. -/
def Event.is_quiet (e : Event) : Bool := !e.is_get_buffer && !e.is_destroy && !e.is_copy

/-- Events that are not decode failures. -/
def Event.is_benign (e : Event) : Bool := !e.is_failure

/-- The trace of `m1` extends that of `m` by events that all satisfy `P`. -/
def ext (P : Event → Bool) (m m1 : Machine) : Prop :=
  ∃ t, m1.trace = m.trace ++ t ∧ ∀ e ∈ t, P e = true

/-- The step from `m` to `m1` keeps the produced-frame flag, the caller's frame and the
liveness of both engines, and appends only quiet events. -/
def kept (m m1 : Machine) : Prop :=
  m1.got_frame = m.got_frame ∧ m1.picture = m.picture ∧
  (∀ b, (m1.engine b).live = (m.engine b).live) ∧ ext Event.is_quiet m m1

/-- An engine that rejects its first feed and afterwards accepts every feed, yielding
the given image. -/
def engine_failing_once (img : vpx_image) : vpx_codec_ctx :=
  { live := true, fed := [],
    behaviour := fun fed =>
      if fed.length = 1 then { ok := false, img := none } else { ok := true, img := some img } }

/-- A packet whose only side-data element is not a block-additional payload. -/
def packet_other_side : AVPacket :=
  { data := [1, 2, 3],
    side_data := [{ data := [1, 2, 3, 4], type := AVPacketSideDataType.other 0 }] }

/-- A packet whose block-additional side payload has only four bytes. -/
def packet_short_alpha : AVPacket :=
  { data := [1, 2, 3],
    side_data := [{ data := [1, 2, 3, 4],
                    type := AVPacketSideDataType.MATROSKA_BLOCKADDITIONAL }] }

/-- A packet whose block-additional side payload has only five bytes. -/
def packet_five_alpha : AVPacket :=
  { data := [1, 2, 3],
    side_data := [{ data := [1, 2, 3, 4, 5],
                    type := AVPacketSideDataType.MATROSKA_BLOCKADDITIONAL }] }

/-- An alpha-enabled 2x2 session whose engines yield the given images. -/
def alpha_session (color alpha : Option vpx_image) : Machine :=
  session 2 2 AVPixelFormat.YUVA420P (engine_yielding color) (engine_yielding alpha)

instance (img : vpx_image) (m : Machine) : Decidable (differs img m) := by
  unfold differs; exact inferInstance

/-- A sequence of `vp8_decode` calls on one session, each with the host as it is at that
call; the sequence ends at a call that ends in an invalid access. -/
def decode_seq : List (Host × AVPacket) → Machine → Machine
  | [], m => m
  | c :: cs, m =>
    match (vp8_decode c.1 c.2 m).1 with
    | Outcome.crash => (vp8_decode c.1 c.2 m).2
    | Outcome.ret _ => decode_seq cs (vp8_decode c.1 c.2 m).2

/-- Every call of the sequence has its feed accepted and gets an I420 image whose size,
as `(int) d_w` and `(int) d_h`, is `w x h`; a dimension-change request to that size is
granted, and no call ends in an invalid access. -/
def yields_sizes (w h : Int) : List (Host × AVPacket) → Machine → Bool
  | [], _ => true
  | c :: cs, m =>
    (vpx_codec_decode (m.engine false) (color_feed c.2)).1 &&
    (match color_image m c.2 with
     | some i => decide (i.fmt = VPX_IMG_FMT_I420 ∧ i.width = w ∧ i.height = h)
     | none => false) &&
    decide (0 ≤ c.1.set_dimensions w h) &&
    decide ((vp8_decode c.1 c.2 m).1 ≠ Outcome.crash) &&
    yields_sizes w h cs (vp8_decode c.1 c.2 m).2

/-- The two events of a feed followed by a pull. -/
def pull_events (a : Bool) (f : Feed) (m : Machine) : List Event :=
  [Event.decode a f (vpx_codec_decode (m.engine a) f).1,
   Event.get_frame a
     ((vpx_codec_get_frame (vpx_codec_decode (m.engine a) f).2).map vpx_image.info)]

/-- A 4x4 I420 colour image with tightly packed planes. -/
def color4x4 : vpx_image :=
  { fmt := VPX_IMG_FMT_I420, d_w := 4, d_h := 4,
    planeY := Plane.ofList [10, 11, 12, 13, 14, 15, 16, 17, 18, 19, 20, 21, 22, 23, 24, 25] 4,
    planeU := Plane.ofList [30, 31, 32, 33] 2,
    planeV := Plane.ofList [40, 41, 42, 43] 2,
    planeA := Plane.null }

/-- An engine that accepts every feed and yields a 2x2 image for its first feed and 4x4
images afterwards. -/
def engine_resizing : vpx_codec_ctx :=
  { live := true, fed := [],
    behaviour := fun fed =>
      if fed.length ≤ 1 then { ok := true, img := some color2x2 }
      else { ok := true, img := some color4x4 } }

/-- A plain 2x2 session on the resizing engine. -/
def resizing_session : Machine :=
  session 2 2 AVPixelFormat.YUV420P engine_resizing no_engine

/-- The data pointer of the plane is not NULL. -/
def Plane.present (p : Plane) : Prop := p.mem ≠ none

/-- Planes 0-2 of the frame hold the Y, U and V samples of the image at every row and
column of its decoded size (chroma at the rounded-up half size). -/
def holds_color (f : AVFrame) (i : vpx_image) : Prop :=
  (∀ r c : Nat, r < i.rows → c < i.cols → f.data0.sample r c = i.planeY.sample r c) ∧
  (∀ r c : Nat, r < (i.rows + 1) / 2 → c < (i.cols + 1) / 2 →
    f.data1.sample r c = i.planeU.sample r c ∧ f.data2.sample r c = i.planeV.sample r c)

/-- The lowest offset of the block of `rows` rows of a plane: the data pointer for a
non-negative line size, the start of the last row for a negative one. -/
def Plane.block_start (p : Plane) (rows : Nat) : Int :=
  if 0 ≤ p.linesize then p.off else p.off + ((rows : Int) - 1) * p.linesize

/-- The block of `rows` rows of `|linesize|` bytes each lies inside the buffer. -/
def Plane.fits (p : Plane) (b : Buffer) (rows : Nat) : Prop :=
  0 ≤ p.block_start rows ∧
  p.block_start rows + (rows : Int) * (FFABS p.linesize : Int) ≤ (b.size : Int)

/-- A host that grants every request and hands out 2x2 frames whose alpha plane is stored
bottom-up: a negative line size, the data pointer at the start of the last stored row. -/
def host_flipped : Host :=
  { set_dimensions := fun _ _ => 0,
    get_buffer := fun w h =>
      (0, { width := w, height := h,
            data0 := Plane.ofList [0, 0, 0, 0] 2,
            data1 := Plane.ofList [0] 1,
            data2 := Plane.ofList [0] 1,
            data3 := { mem := some (Buffer.ofList [7, 7, 7, 7]), off := 2, linesize := -2 } }) }

/-- A `memcpy` or `memset` of `n` bytes at offset `p` performs no invalid access: it is
empty or lies inside the buffer. -/
def Buffer.holds (b : Buffer) (p : Int) (n : Nat) : Prop := n = 0 ∨ b.inb p n

instance (b : Buffer) (p : Int) (n : Nat) : Decidable (b.holds p n) := by
  unfold Buffer.holds; exact inferInstance

/-- Each of the `rows` rows of `bw` bytes that start at `off`, `off + linesize`, ... can
be accessed in the buffer. -/
def rows_hold (b : Buffer) (off linesize : Int) (bw rows : Nat) : Prop :=
  ∀ r : Nat, r < rows → b.holds (off + (r : Int) * linesize) bw

instance (b : Buffer) (off linesize : Int) (bw rows : Nat) :
    Decidable (rows_hold b off linesize bw rows) := by
  unfold rows_hold; exact inferInstance

/-- The precondition of a plane copy on two data pointers: when both are present, the
line sizes cover the row width and every row read and written can be accessed. -/
def copy_ok_mem (dl sl : Int) (doff soff : Int) (bw rows : Nat) :
    Option Buffer → Option Buffer → Prop
  | some d, some s =>
    bw ≤ FFABS sl ∧ bw ≤ FFABS dl ∧ rows_hold d doff dl bw rows ∧ rows_hold s soff sl bw rows
  | _, _ => True

instance (dl sl doff soff : Int) (bw rows : Nat) (dm sm : Option Buffer) :
    Decidable (copy_ok_mem dl sl doff soff bw rows dm sm) :=
  match dm, sm with
  | some d, some s =>
    (inferInstance : Decidable (bw ≤ FFABS sl ∧ bw ≤ FFABS dl ∧
      rows_hold d doff dl bw rows ∧ rows_hold s soff sl bw rows))
  | none, _ => isTrue trivial
  | some _, none => isTrue trivial

/-- The copy of `rows` rows of `bw` bytes from `src`, read with line size `sl`, into `dst`
performs no invalid access and fails no assertion. -/
def copy_ok (dst src : Plane) (sl : Int) (bw rows : Nat) : Prop :=
  copy_ok_mem dst.linesize sl dst.off src.off bw rows dst.mem src.mem

instance (dst src : Plane) (sl : Int) (bw rows : Nat) : Decidable (copy_ok dst src sl bw rows) := by
  unfold copy_ok; exact inferInstance

/-- Two planes have the same data-pointer offset, line size and buffer size (or are both
NULL). -/
def Plane.same_shape (p q : Plane) : Prop :=
  p.off = q.off ∧ p.linesize = q.linesize ∧ p.mem.map Buffer.size = q.mem.map Buffer.size

/-- The frame can take the copy of the image under the pixel format: every plane copy
that `av_image_copy` makes performs no invalid access. -/
def frame_adequate (pf : AVPixelFormat) (f : AVFrame) (i : vpx_image) : Prop :=
  copy_ok f.data0 i.planeY i.planeY.linesize (av_image_get_linesize pf i.width 0).toNat
    i.height.toNat ∧
  copy_ok f.data1 i.planeU i.planeU.linesize (av_image_get_linesize pf i.width 1).toNat
    (AV_CEIL_RSHIFT1 i.height).toNat ∧
  copy_ok f.data2 i.planeV i.planeV.linesize (av_image_get_linesize pf i.width 2).toNat
    (AV_CEIL_RSHIFT1 i.height).toNat ∧
  copy_ok f.data3 i.planeA i.planeA.linesize (av_image_get_linesize pf i.width 3).toNat
    i.height.toNat

instance (pf : AVPixelFormat) (f : AVFrame) (i : vpx_image) :
    Decidable (frame_adequate pf f i) := by
  unfold frame_adequate; exact inferInstance

/-- The fill loop over `rows` rows of the plane performs no invalid access: there is
nothing to write, or the plane is present and its block of rows lies in its buffer. -/
def fill_ok_mem (p : Plane) (rows : Nat) : Option Buffer → Prop
  | none => rows = 0 ∨ p.linesize = 0
  | some b =>
    rows = 0 ∨ p.linesize = 0 ∨
      (0 ≤ p.block_start rows ∧
       p.block_start rows + (rows : Int) * (FFABS p.linesize : Int) ≤ (b.size : Int))

instance (p : Plane) (rows : Nat) (bm : Option Buffer) : Decidable (fill_ok_mem p rows bm) :=
  match bm with
  | none => (inferInstance : Decidable (rows = 0 ∨ p.linesize = 0))
  | some b =>
    (inferInstance : Decidable (rows = 0 ∨ p.linesize = 0 ∨
      (0 ≤ p.block_start rows ∧
       p.block_start rows + (rows : Int) * (FFABS p.linesize : Int) ≤ (b.size : Int))))

/-- The fill loop of State A over `rows` rows of the plane performs no invalid access. -/
def fill_ok (p : Plane) (rows : Nat) : Prop := fill_ok_mem p rows p.mem

instance (p : Plane) (rows : Nat) : Decidable (fill_ok p rows) := by
  unfold fill_ok; exact inferInstance

/-- The engine, fed `f` in its current state, accepts the feed and yields the I420
image `i`. -/
def yields (c : vpx_codec_ctx) (f : Feed) (i : vpx_image) : Prop :=
  (c.behaviour (c.fed ++ [f])).ok = true ∧ (c.behaviour (c.fed ++ [f])).img = some i ∧
  i.fmt = VPX_IMG_FMT_I420

/-- A packet the session decodes into a frame.  The colour engine accepts its feed and
yields the I420 image `i`; the host grants a dimension-change request and an allocation
for the size of `i`, and the frame it hands out can take the copy of `i`.  On the alpha
codec moreover: without side data, the fill of plane 3 over the rows of `i` stays in its
buffer; with side data, the alpha engine accepts its feed and yields the I420 image `a` of
the same size as `i`, the width is not negative, and the copy of the alpha rows into
plane 3 performs no invalid access. -/
def accepted (alpha : Bool) (host : Host) (avpkt : AVPacket) (m : Machine)
    (i a : vpx_image) : Prop :=
  yields (m.engine false) (color_feed avpkt) i ∧
  0 ≤ host.set_dimensions i.width i.height ∧
  0 ≤ (host.get_buffer i.width i.height).1 ∧
  frame_adequate m.avctx.pix_fmt (host.get_buffer i.width i.height).2 i ∧
  (alpha = true →
    (avpkt.side_data_elems = 0 → fill_ok (host.get_buffer i.width i.height).2.data3 i.rows) ∧
    (avpkt.side_data_elems ≠ 0 →
      yields (m.engine true) (alpha_feed avpkt) a ∧
      a.width = i.width ∧ a.height = i.height ∧ 0 ≤ i.width ∧
      copy_ok (host.get_buffer i.width i.height).2.data3 a.planeY i.planeY.linesize
        i.cols i.rows))

/-- An engine that rejects its first feed and afterwards accepts every feed without
yielding an image. -/
def engine_failing_then_silent : vpx_codec_ctx :=
  { live := true, fed := [],
    behaviour := fun fed =>
      if fed.length = 1 then { ok := false, img := none } else { ok := true, img := none } }

/-- A host that refuses every dimension-change request and grants every allocation. -/
def host_refusing : Host :=
  { set_dimensions := fun _ _ => AVERROR EINVAL, get_buffer := host_ok.get_buffer }

/-- An I420 image whose `d_w` is 2^31, with no buffers attached. -/
def wide_image : vpx_image :=
  { fmt := VPX_IMG_FMT_I420, d_w := 2147483648, d_h := 2,
    planeY := Plane.null, planeU := Plane.null, planeV := Plane.null, planeA := Plane.null }

/-! ## Theorems -/

/-! ### The feed / pull / check block -/

theorem feed_pull_check_cases (alpha : Bool) (host : Host) (feed : Feed) (m : Machine) :
    ((vpx_codec_decode (m.engine alpha) feed).1 = false ∧
      feed_pull_check alpha host feed m =
        Stage.done (Outcome.ret AVERROR_INVALIDDATA, fed alpha feed m)) ∨
    ((vpx_codec_decode (m.engine alpha) feed).1 = true ∧
      vpx_codec_get_frame (vpx_codec_decode (m.engine alpha) feed).2 = none ∧
      feed_pull_check alpha host feed m = Stage.next none (pulled alpha feed m)) ∨
    (∃ i, (vpx_codec_decode (m.engine alpha) feed).1 = true ∧
      vpx_codec_get_frame (vpx_codec_decode (m.engine alpha) feed).2 = some i ∧
      ((i.fmt ≠ VPX_IMG_FMT_I420 ∧
        feed_pull_check alpha host feed m =
          Stage.done (Outcome.ret AVERROR_INVALIDDATA, pulled alpha feed m)) ∨
       (i.fmt = VPX_IMG_FMT_I420 ∧ ¬ differs i (pulled alpha feed m) ∧
        feed_pull_check alpha host feed m = Stage.next (some i) (pulled alpha feed m)) ∨
       (i.fmt = VPX_IMG_FMT_I420 ∧ differs i (pulled alpha feed m) ∧
        host.set_dimensions i.width i.height < 0 ∧
        feed_pull_check alpha host feed m =
          Stage.done (Outcome.ret (host.set_dimensions i.width i.height),
                      resized host i (pulled alpha feed m))) ∨
       (i.fmt = VPX_IMG_FMT_I420 ∧ differs i (pulled alpha feed m) ∧
        0 ≤ host.set_dimensions i.width i.height ∧
        feed_pull_check alpha host feed m =
          Stage.next (some i) (resized host i (pulled alpha feed m))))) := by
  unfold feed_pull_check
  simp only
  split_ifs with h1
  · exact Or.inl ⟨h1, rfl⟩
  · have h1t : (vpx_codec_decode (m.engine alpha) feed).1 = true := by simpa using h1
    split
    · rename_i hn
      exact Or.inr (Or.inl ⟨h1t, hn, rfl⟩)
    · rename_i i hi
      refine Or.inr (Or.inr ⟨i, h1t, hi, ?_⟩)
      split_ifs with h2
      · exact Or.inl ⟨h2, rfl⟩
      · have h2t : i.fmt = VPX_IMG_FMT_I420 := by simpa using h2
        right
        unfold dimension_check
        split_ifs with h3 h4
        · exact Or.inr (Or.inl ⟨h2t, h3, h4, rfl⟩)
        · exact Or.inr (Or.inr ⟨h2t, h3, not_lt.mp h4, rfl⟩)
        · exact Or.inl ⟨h2t, h3, rfl⟩

theorem ext_trans {P : Event → Bool} {m m1 m2 : Machine} (h1 : ext P m m1)
    (h2 : ext P m1 m2) : ext P m m2 := by
  obtain ⟨t1, e1, p1⟩ := h1
  obtain ⟨t2, e2, p2⟩ := h2
  refine ⟨t1 ++ t2, by rw [e2, e1, List.append_assoc], ?_⟩
  intro e he
  rcases List.mem_append.mp he with h | h
  · exact p1 e h
  · exact p2 e h

theorem ext_new_events {P : Event → Bool} {m : Machine} {r : Outcome × Machine}
    (h : ext P m r.2) : ∀ e ∈ new_events m r, P e = true := by
  obtain ⟨t, e1, p1⟩ := h
  intro e he
  unfold new_events at he
  rw [e1, List.drop_left] at he
  exact p1 e he

theorem kept_trans {m m1 m2 : Machine} (h1 : kept m m1) (h2 : kept m1 m2) : kept m m2 :=
  ⟨h2.1.trans h1.1, h2.2.1.trans h1.2.1, fun b => (h2.2.2.1 b).trans (h1.2.2.1 b),
   ext_trans h1.2.2.2 h2.2.2.2⟩

@[simp] theorem fed_trace (a : Bool) (f : Feed) (m : Machine) :
    (fed a f m).trace =
      m.trace ++ [Event.decode a f (vpx_codec_decode (m.engine a) f).1] := rfl

@[simp] theorem fed_got_frame (a : Bool) (f : Feed) (m : Machine) :
    (fed a f m).got_frame = m.got_frame := rfl

@[simp] theorem fed_picture (a : Bool) (f : Feed) (m : Machine) :
    (fed a f m).picture = m.picture := rfl

@[simp] theorem fed_width (a : Bool) (f : Feed) (m : Machine) :
    (fed a f m).avctx.width = m.avctx.width := rfl

@[simp] theorem fed_height (a : Bool) (f : Feed) (m : Machine) :
    (fed a f m).avctx.height = m.avctx.height := rfl

@[simp] theorem fed_pix_fmt (a : Bool) (f : Feed) (m : Machine) :
    (fed a f m).avctx.pix_fmt = m.avctx.pix_fmt := rfl

theorem fed_engine (a b : Bool) (f : Feed) (m : Machine) :
    (fed a f m).engine b =
      if b = a then (vpx_codec_decode (m.engine a) f).2 else m.engine b := by
  cases a <;> cases b <;> rfl

@[simp] theorem pulled_trace (a : Bool) (f : Feed) (m : Machine) :
    (pulled a f m).trace =
      m.trace ++ [Event.decode a f (vpx_codec_decode (m.engine a) f).1,
        Event.get_frame a
          ((vpx_codec_get_frame (vpx_codec_decode (m.engine a) f).2).map vpx_image.info)] := by
  simp [pulled, Machine.log]

@[simp] theorem pulled_got_frame (a : Bool) (f : Feed) (m : Machine) :
    (pulled a f m).got_frame = m.got_frame := rfl

@[simp] theorem pulled_picture (a : Bool) (f : Feed) (m : Machine) :
    (pulled a f m).picture = m.picture := rfl

@[simp] theorem pulled_width (a : Bool) (f : Feed) (m : Machine) :
    (pulled a f m).avctx.width = m.avctx.width := rfl

@[simp] theorem pulled_height (a : Bool) (f : Feed) (m : Machine) :
    (pulled a f m).avctx.height = m.avctx.height := rfl

@[simp] theorem pulled_pix_fmt (a : Bool) (f : Feed) (m : Machine) :
    (pulled a f m).avctx.pix_fmt = m.avctx.pix_fmt := rfl

theorem pulled_engine (a b : Bool) (f : Feed) (m : Machine) :
    (pulled a f m).engine b =
      if b = a then (vpx_codec_decode (m.engine a) f).2 else m.engine b :=
  fed_engine a b f m

@[simp] theorem resized_trace (host : Host) (i : vpx_image) (m : Machine) :
    (resized host i m).trace =
      m.trace ++ [Event.set_dimensions i.width i.height (host.set_dimensions i.width i.height)] := rfl

@[simp] theorem resized_got_frame (host : Host) (i : vpx_image) (m : Machine) :
    (resized host i m).got_frame = m.got_frame := rfl

@[simp] theorem resized_picture (host : Host) (i : vpx_image) (m : Machine) :
    (resized host i m).picture = m.picture := rfl

@[simp] theorem resized_pix_fmt (host : Host) (i : vpx_image) (m : Machine) :
    (resized host i m).avctx.pix_fmt = m.avctx.pix_fmt := rfl

@[simp] theorem resized_engine (host : Host) (i : vpx_image) (m : Machine) (b : Bool) :
    (resized host i m).engine b = m.engine b := rfl

theorem resized_width (host : Host) (i : vpx_image) (m : Machine)
    (h : 0 ≤ host.set_dimensions i.width i.height) :
    (resized host i m).avctx.width = i.width := by
  simp [resized, ff_set_dimensions, not_lt.mpr h]

theorem resized_height (host : Host) (i : vpx_image) (m : Machine)
    (h : 0 ≤ host.set_dimensions i.width i.height) :
    (resized host i m).avctx.height = i.height := by
  simp [resized, ff_set_dimensions, not_lt.mpr h]

theorem kept_fed (a : Bool) (f : Feed) (m : Machine) : kept m (fed a f m) := by
  refine ⟨rfl, rfl, ?_, ⟨_, fed_trace a f m, by simp [Event.is_quiet, Event.is_get_buffer,
    Event.is_destroy, Event.is_copy]⟩⟩
  intro b
  rw [fed_engine]
  split_ifs with h
  · subst h; rfl
  · rfl

theorem kept_pulled (a : Bool) (f : Feed) (m : Machine) : kept m (pulled a f m) := by
  refine ⟨rfl, rfl, ?_, ⟨_, pulled_trace a f m, by simp [Event.is_quiet, Event.is_get_buffer,
    Event.is_destroy, Event.is_copy]⟩⟩
  intro b
  rw [pulled_engine]
  split_ifs with h
  · subst h; rfl
  · rfl

theorem kept_resized (host : Host) (i : vpx_image) (m : Machine) :
    kept m (resized host i m) :=
  ⟨rfl, rfl, fun _ => rfl, ⟨_, resized_trace host i m, by simp [Event.is_quiet,
    Event.is_get_buffer, Event.is_destroy, Event.is_copy]⟩⟩

/-- The feed / pull / check block keeps the flag, the frame and the engines alive, and
neither allocates nor copies. -/
theorem feed_pull_check_kept (a : Bool) (host : Host) (f : Feed) (m : Machine) :
    kept m (feed_pull_check a host f m).machine := by
  rcases feed_pull_check_cases a host f m with ⟨_, e⟩ | ⟨_, _, e⟩ |
    ⟨i, _, _, ⟨_, e⟩ | ⟨_, _, e⟩ | ⟨_, _, _, e⟩ | ⟨_, _, _, e⟩⟩ <;> rw [e] <;>
    simp only [Stage.machine]
  · exact kept_fed a f m
  · exact kept_pulled a f m
  · exact kept_pulled a f m
  · exact kept_pulled a f m
  · exact kept_trans (kept_pulled a f m) (kept_resized host i _)
  · exact kept_trans (kept_pulled a f m) (kept_resized host i _)

/-- A block that ends the call returns a negative value, and a block that appended a
decode failure returns `AVERROR_INVALIDDATA`. -/
theorem feed_pull_check_done (a : Bool) (host : Host) (f : Feed) (m : Machine)
    (r : Outcome × Machine) (h : feed_pull_check a host f m = Stage.done r) :
    (∃ v, r.1 = Outcome.ret v ∧ v < 0) ∧
    (r.1 = Outcome.ret AVERROR_INVALIDDATA ∨ ext Event.is_benign m r.2) := by
  rcases feed_pull_check_cases a host f m with ⟨_, e⟩ | ⟨_, _, e⟩ |
    ⟨i, h1, hi, ⟨_, e⟩ | ⟨_, _, e⟩ | ⟨h2, _, h4, e⟩ | ⟨_, _, _, e⟩⟩ <;> rw [e] at h <;>
    cases h
  · exact ⟨⟨_, rfl, by decide⟩, Or.inl rfl⟩
  · exact ⟨⟨_, rfl, by decide⟩, Or.inl rfl⟩
  · refine ⟨⟨_, rfl, h4⟩, Or.inr (@ext_trans _ _ (pulled a f m) _ ⟨_, pulled_trace a f m, ?_⟩
      ⟨_, resized_trace host i _, ?_⟩)⟩
    · simp [Event.is_benign, Event.is_failure, h1, hi, vpx_image.info, h2]
    · simp [Event.is_benign, Event.is_failure]

/-- A block after which execution continues appended no decode failure. -/
theorem feed_pull_check_next (a : Bool) (host : Host) (f : Feed) (m m1 : Machine)
    (img : Option vpx_image) (h : feed_pull_check a host f m = Stage.next img m1) :
    ext Event.is_benign m m1 ∧
    (vpx_codec_decode (m.engine a) f).1 = true ∧
    img = vpx_codec_get_frame (vpx_codec_decode (m.engine a) f).2 ∧
    (∀ i, img = some i → i.fmt = VPX_IMG_FMT_I420 ∧
      m1.avctx.width = i.width ∧ m1.avctx.height = i.height) ∧
    (img = none → m1.avctx.width = m.avctx.width ∧ m1.avctx.height = m.avctx.height) := by
  rcases feed_pull_check_cases a host f m with ⟨_, e⟩ | ⟨h1, hn, e⟩ |
    ⟨i, h1, hi, ⟨_, e⟩ | ⟨h2, h3, e⟩ | ⟨h2, _, h4, e⟩ | ⟨h2, h3, h4, e⟩⟩ <;> rw [e] at h <;>
    cases h
  · refine ⟨⟨_, pulled_trace a f m, ?_⟩, h1, hn.symm, by simp, by simp⟩
    simp [Event.is_benign, Event.is_failure, h1, hn]
  · refine ⟨⟨_, pulled_trace a f m, ?_⟩, h1, hi.symm, ?_, by simp⟩
    · simp [Event.is_benign, Event.is_failure, h1, hi, vpx_image.info, h2]
    · intro j hj
      cases hj
      unfold differs at h3
      simp only [ne_eq, not_or, not_not, pulled_width, pulled_height] at h3
      exact ⟨h2, h3.1.symm, h3.2.symm⟩
  · refine ⟨@ext_trans _ _ (pulled a f m) _ ⟨_, pulled_trace a f m, ?_⟩
      ⟨_, resized_trace host i _, ?_⟩, h1, hi.symm, ?_, by simp⟩
    · simp [Event.is_benign, Event.is_failure, h1, hi, vpx_image.info, h2]
    · simp [Event.is_benign, Event.is_failure]
    · intro j hj
      cases hj
      exact ⟨h2, resized_width host _ _ h4, resized_height host _ _ h4⟩

/-! ### Allocation and composition -/

@[simp] theorem get_buffer_trace (host : Host) (m : Machine) :
    (ff_get_buffer host m).2.trace =
      m.trace ++ [Event.get_buffer (ff_get_buffer host m).1] := rfl

@[simp] theorem get_buffer_got_frame (host : Host) (m : Machine) :
    (ff_get_buffer host m).2.got_frame = m.got_frame := rfl

@[simp] theorem get_buffer_avctx (host : Host) (m : Machine) :
    (ff_get_buffer host m).2.avctx = m.avctx := rfl

theorem get_buffer_width (host : Host) (m : Machine) (h : 0 ≤ (ff_get_buffer host m).1) :
    (ff_get_buffer host m).2.picture.width = m.avctx.width := by
  have h1 : ¬ (host.get_buffer m.avctx.width m.avctx.height).1 < 0 := not_lt.mpr h
  simp [ff_get_buffer, h1]

theorem get_buffer_height (host : Host) (m : Machine) (h : 0 ≤ (ff_get_buffer host m).1) :
    (ff_get_buffer host m).2.picture.height = m.avctx.height := by
  have h1 : ¬ (host.get_buffer m.avctx.width m.avctx.height).1 < 0 := not_lt.mpr h
  simp [ff_get_buffer, h1]

theorem av_image_copy_dims (dst pic : AVFrame) (src : vpx_image) (pix_fmt : AVPixelFormat)
    (w h : Int) (hc : av_image_copy dst src pix_fmt w h = some pic) :
    pic.width = dst.width ∧ pic.height = dst.height := by
  unfold av_image_copy at hc
  split at hc
  · cases hc; exact ⟨rfl, rfl⟩
  · split_ifs at hc
    · cases hc; exact ⟨rfl, rfl⟩
    all_goals
      split at hc
      · cases hc; exact ⟨rfl, rfl⟩
      · cases hc

theorem alloc_copy_benign (host : Host) (avpkt : AVPacket) (img : vpx_image) (m : Machine) :
    ext Event.is_benign m (alloc_copy host avpkt img m).2 := by
  unfold alloc_copy
  simp only
  split_ifs
  · exact ⟨_, get_buffer_trace host m, by simp [Event.is_benign, Event.is_failure]⟩
  · split <;>
      exact ⟨[Event.get_buffer (ff_get_buffer host m).1, Event.image_copy img.width img.height],
        by simp [Machine.log], by simp [Event.is_benign, Event.is_failure]⟩

theorem composite_benign (host : Host) (avpkt : AVPacket) (img img_alpha : Option vpx_image)
    (m : Machine) : ext Event.is_benign m (composite host avpkt img img_alpha m).2 := by
  unfold composite
  simp only
  split_ifs
  · exact ⟨_, get_buffer_trace host m, by simp [Event.is_benign, Event.is_failure]⟩
  · split
    · exact ⟨_, get_buffer_trace host m, by simp [Event.is_benign, Event.is_failure]⟩
    · rename_i i
      split
      · exact ⟨[Event.get_buffer (ff_get_buffer host m).1, Event.image_copy i.width i.height],
          by simp [Machine.log], by simp [Event.is_benign, Event.is_failure]⟩
      · split_ifs
        · exact ⟨[Event.get_buffer (ff_get_buffer host m).1, Event.image_copy i.width i.height],
            by simp [Machine.log], by simp [Event.is_benign, Event.is_failure]⟩
        · split
          · exact ⟨[Event.get_buffer (ff_get_buffer host m).1, Event.image_copy i.width i.height],
              by simp [Machine.log], by simp [Event.is_benign, Event.is_failure]⟩
          · split <;>
              exact ⟨[Event.get_buffer (ff_get_buffer host m).1,
                  Event.image_copy i.width i.height,
                  Event.image_copy_plane
                    (av_image_get_linesize AVPixelFormat.YUVA420P i.width 3) i.height],
                by simp [Machine.log], by simp [Event.is_benign, Event.is_failure]⟩

/-- A decode call either fails cleanly with `AVERROR_INVALIDDATA`, keeping the flag, the
frame and the engines and never allocating, or it appends no decode failure. -/
theorem vp8_decode_clean_or_benign (host : Host) (avpkt : AVPacket) (m : Machine) :
    ((vp8_decode host avpkt m).1 = Outcome.ret AVERROR_INVALIDDATA ∧
      kept m (vp8_decode host avpkt m).2) ∨
    ext Event.is_benign m (vp8_decode host avpkt m).2 := by
  have hk := feed_pull_check_kept false host (color_feed avpkt) m
  unfold vp8_decode
  cases hS : feed_pull_check false host (color_feed avpkt) m with
  | done r =>
    rw [hS] at hk
    rcases (feed_pull_check_done _ _ _ _ _ hS).2 with h | h
    · exact Or.inl ⟨h, hk⟩
    · exact Or.inr h
  | next img m1 =>
    have hn := (feed_pull_check_next _ _ _ _ _ _ hS).1
    cases img with
    | none => exact Or.inr hn
    | some i => exact Or.inr (ext_trans hn (alloc_copy_benign host avpkt i m1))

theorem vp8alpha_decode_clean_or_benign (host : Host) (avpkt : AVPacket) (m : Machine) :
    ((vp8alpha_decode host avpkt m).1 = Outcome.ret AVERROR_INVALIDDATA ∧
      kept m (vp8alpha_decode host avpkt m).2) ∨
    ext Event.is_benign m (vp8alpha_decode host avpkt m).2 := by
  unfold vp8alpha_decode
  split_ifs with hs
  · have hA := vp8_decode_clean_or_benign host avpkt m
    split
    · exact hA
    · rename_i ret hret
      split_ifs with hneg
      · exact hA
      · rcases hA with ⟨h1, _⟩ | h
        · rw [hret] at h1
          injection h1 with h1
          rw [h1] at hneg
          exact absurd (by decide) hneg
        · right
          simp only
          split <;> exact h
  · have hk := feed_pull_check_kept false host (color_feed avpkt) m
    cases hS : feed_pull_check false host (color_feed avpkt) m with
    | done r =>
      rw [hS] at hk
      rcases (feed_pull_check_done _ _ _ _ _ hS).2 with h | h
      · exact Or.inl ⟨h, hk⟩
      · exact Or.inr h
    | next img m1 =>
      rw [hS] at hk
      have hn := (feed_pull_check_next _ _ _ _ _ _ hS).1
      have hk2 := feed_pull_check_kept true host (alpha_feed avpkt) m1
      simp only
      cases hT : feed_pull_check true host (alpha_feed avpkt) m1 with
      | done r =>
        rw [hT] at hk2
        rcases (feed_pull_check_done _ _ _ _ _ hT).2 with h | h
        · exact Or.inl ⟨h, kept_trans hk hk2⟩
        · exact Or.inr (ext_trans hn h)
      | next img_alpha m2 =>
        have hn2 := (feed_pull_check_next _ _ _ _ _ _ hT).1
        exact Or.inr (ext_trans hn (ext_trans hn2 (composite_benign host avpkt img img_alpha m2)))

/-! ### The engine a block does not feed -/

theorem feed_pull_check_other (a b : Bool) (host : Host) (f : Feed) (m : Machine)
    (hb : b ≠ a) : (feed_pull_check a host f m).machine.engine b = m.engine b := by
  rcases feed_pull_check_cases a host f m with ⟨_, e⟩ | ⟨_, _, e⟩ |
    ⟨i, _, _, ⟨_, e⟩ | ⟨_, _, e⟩ | ⟨_, _, _, e⟩ | ⟨_, _, _, e⟩⟩ <;> rw [e] <;>
    simp [Stage.machine, fed_engine, pulled_engine, hb]


/-! ### Initialisation -/

/-- C5 (evaluated at the failing input). `vpx_init` with the alpha engine requested, on a
library that constructs the colour engine and fails to construct the alpha engine:
the call returns `AVERROR(EINVAL)`, it made the two construction calls and no destroy
call, and the colour engine, not alive before the call, is alive after it. -/
theorem vpx_init_leaks_color_engine :
    (vpx_init iface_alpha_fails true (fresh_avctx 1)).1 = AVERROR EINVAL ∧
    (vpx_init iface_alpha_fails true (fresh_avctx 1)).2.2 =
      [Event.dec_init false 1 true, Event.dec_init true 1 false] ∧
    (fresh_avctx 1).priv_data.decoder.live = false ∧
    (vpx_init iface_alpha_fails true (fresh_avctx 1)).2.1.priv_data.decoder.live = true := by
  decide

/-- C6 as stated fails: with `thread_count = 0` the value passed to engine construction
is 0, which is not in [1, 16] and is not `min(max(0, 1), 16) = 1`. -/
theorem vpx_init_threads_zero :
    threads_passed (vpx_init iface_ok false (fresh_avctx 0)).2.2 = [0] ∧
    min (max (0 : Int) 1) 16 = 1 := by
  decide

/-- C6, amended. For every `thread_count >= 1` supplied by the host, `vpx_init` constructs
at least one engine, and every thread count it passes to engine construction (the same
for the colour and the alpha engine) equals `min(max(thread_count, 1), 16)` and lies in
[1, 16]; in particular `thread_count = 32` yields 16. -/
theorem vpx_init_threads_clamped (iface : vpx_codec_iface) (bAlpha : Bool)
    (avctx : AVCodecContext) (h : 1 ≤ avctx.thread_count) :
    threads_passed (vpx_init iface bAlpha avctx).2.2 ≠ [] ∧
    (∀ t ∈ threads_passed (vpx_init iface bAlpha avctx).2.2,
      (t : Int) = min (max avctx.thread_count 1) 16 ∧ 1 ≤ t ∧ t ≤ 16) ∧
    (avctx.thread_count = 32 →
      ∀ t ∈ threads_passed (vpx_init iface bAlpha avctx).2.2, t = 16) := by
  have key : (deccfg_threads avctx.thread_count : Int) = min (max avctx.thread_count 1) 16 ∧
      1 ≤ deccfg_threads avctx.thread_count ∧ deccfg_threads avctx.thread_count ≤ 16 := by
    unfold deccfg_threads FFMIN
    split_ifs with h1 <;> omega
  have mem : ∀ t ∈ threads_passed (vpx_init iface bAlpha avctx).2.2,
      t = deccfg_threads avctx.thread_count := by
    intro t ht
    unfold vpx_init at ht
    simp only at ht
    split_ifs at ht <;> simp [threads_passed] at ht <;> simp [ht]
  refine ⟨?_, ?_, ?_⟩
  · unfold vpx_init
    simp only
    split_ifs <;> simp [threads_passed]
  · intro t ht
    rw [mem t ht]; exact key
  · intro h32 t ht
    rw [mem t ht]
    have h2 := key.1
    rw [h32] at h2
    have h3 : min (max (32 : Int) 1) 16 = 16 := by decide
    omega

/-- C6, amended, at `thread_count = 32` with both engines requested. -/
theorem vpx_init_threads_clamped_witness :
    (1 : Int) ≤ (fresh_avctx 32).thread_count ∧
    ∀ t ∈ threads_passed (vpx_init iface_ok true (fresh_avctx 32)).2.2, t = 16 :=
  ⟨by decide,
   (vpx_init_threads_clamped iface_ok true (fresh_avctx 32) (by decide)).2.2 rfl⟩

/-! ### Evaluations of State B -/

/-- C1 (evaluated at the failing input). State B with a 2x2 colour image of luma stride 2
and a 2x2 alpha image of luma stride 4: the call succeeds and sets the produced-frame
flag, planes 0-2 hold the colour samples, but plane 3 at row 1, column 0 holds 0, the
byte at offset 1 * 2 + 0 of the alpha luma plane (the colour stride was used), while the
alpha sample at (1, 0), at offset 1 * 4 + 0, is 202. -/
theorem alpha_plane_read_with_color_stride :
    (vp8alpha_decode host_ok packet_with_alpha
      (alpha_session (some color2x2) (some alpha2x2))).1 = Outcome.ret 3 ∧
    (vp8alpha_decode host_ok packet_with_alpha
      (alpha_session (some color2x2) (some alpha2x2))).2.got_frame = 1 ∧
    (vp8alpha_decode host_ok packet_with_alpha
      (alpha_session (some color2x2) (some alpha2x2))).2.picture.data0.sample 1 0 =
        color2x2.planeY.sample 1 0 ∧
    (vp8alpha_decode host_ok packet_with_alpha
      (alpha_session (some color2x2) (some alpha2x2))).2.picture.data3.sample 0 1 =
        alpha2x2.planeY.sample 0 1 ∧
    (vp8alpha_decode host_ok packet_with_alpha
      (alpha_session (some color2x2) (some alpha2x2))).2.picture.data3.sample 1 0 = 0 ∧
    alpha2x2.planeY.sample 1 0 = 202 ∧
    color2x2.planeY.linesize = 2 ∧ alpha2x2.planeY.linesize = 4 := by
  decide

/-- C9 (evaluated at the failing inputs). State B where the engines accept their feeds
but the colour engine yields no image: the call requests an output frame from the host
and then ends in an invalid access through the absent image.  State B where only the
alpha engine yields no image: the call allocates, copies the colour planes and then
ends in an invalid access through the absent alpha image. -/
theorem state_b_absent_image_crashes :
    color_image (alpha_session none (some alpha2x2)) packet_with_alpha = none ∧
    (vp8alpha_decode host_ok packet_with_alpha
      (alpha_session none (some alpha2x2))).1 = Outcome.crash ∧
    Event.get_buffer 0 ∈ new_events (alpha_session none (some alpha2x2))
      (vp8alpha_decode host_ok packet_with_alpha (alpha_session none (some alpha2x2))) ∧
    alpha_image (alpha_session (some color2x2) none) packet_with_alpha = none ∧
    (vp8alpha_decode host_ok packet_with_alpha
      (alpha_session (some color2x2) none)).1 = Outcome.crash ∧
    Event.get_buffer 0 ∈ new_events (alpha_session (some color2x2) none)
      (vp8alpha_decode host_ok packet_with_alpha (alpha_session (some color2x2) none)) ∧
    Event.image_copy 2 2 ∈ new_events (alpha_session (some color2x2) none)
      (vp8alpha_decode host_ok packet_with_alpha (alpha_session (some color2x2) none)) ∧
    (vp8alpha_decode host_ok packet_with_alpha
      (alpha_session (some color2x2) none)).2.picture.data0.sample 0 0 = 10 := by
  refine ⟨rfl, by decide, by decide, rfl, by decide, by decide, by decide, by decide⟩

/-- C10 (evaluated at the failing inputs). State B with a packet that has side data but
no block-additional payload: the alpha engine is fed a pointer derived from NULL with a
length of 4294967288 (that is -8 as `unsigned int`), and the call goes on to return the
packet size with the produced-frame flag set.  With a five-byte payload the alpha engine
is fed 4294967293 bytes starting 8 bytes into the five-byte buffer. -/
theorem alpha_engine_fed_without_payload :
    av_packet_get_side_data packet_other_side
      AVPacketSideDataType.MATROSKA_BLOCKADDITIONAL = (none, 0) ∧
    feeds true (new_events (alpha_session (some color2x2) (some alpha2x2))
      (vp8alpha_decode host_ok packet_other_side
        (alpha_session (some color2x2) (some alpha2x2)))) =
      [{ mem := none, off := 8, data_sz := 4294967288 }] ∧
    (vp8alpha_decode host_ok packet_other_side
      (alpha_session (some color2x2) (some alpha2x2))).1 = Outcome.ret 3 ∧
    (vp8alpha_decode host_ok packet_other_side
      (alpha_session (some color2x2) (some alpha2x2))).2.got_frame = 1 ∧
    feeds true (new_events (alpha_session (some color2x2) (some alpha2x2))
      (vp8alpha_decode host_ok packet_five_alpha
        (alpha_session (some color2x2) (some alpha2x2)))) =
      [{ mem := some [1, 2, 3, 4, 5], off := 8, data_sz := 4294967293 }] := by
  decide

/-- C3 as stated fails: for a side payload of length L = 4 the alpha engine is fed with a
reported length of 4294967292, not L - 8, and the range it is handed does not lie inside
the payload, so it is not the (empty) list of bytes that follow the first 8. -/
theorem alpha_feed_short_payload :
    av_packet_get_side_data packet_short_alpha
      AVPacketSideDataType.MATROSKA_BLOCKADDITIONAL = (some [1, 2, 3, 4], 4) ∧
    feeds true (new_events (alpha_session (some color2x2) (some alpha2x2))
      (vp8alpha_decode host_ok packet_short_alpha
        (alpha_session (some color2x2) (some alpha2x2)))) = [alpha_feed packet_short_alpha] ∧
    (alpha_feed packet_short_alpha).data_sz = 4294967292 ∧
    ((alpha_feed packet_short_alpha).data_sz : Int) ≠ 4 - 8 ∧
    (alpha_feed packet_short_alpha).bytes = none ∧
    (alpha_feed packet_short_alpha).bytes ≠ some (([1, 2, 3, 4] : List Nat).drop 8) := by
  decide

/-- C7 as stated fails: State B with a 2x2 colour image and a 4x4 alpha image on a 2x2
session succeeds with the produced-frame flag set, and the allocated frame is 4x4, not
the colour image's 2x2.  Also, `vp8_decode` of an image with `d_w = 2^31` on a host that
grants the request produces a frame of width `(int) d_w = -2147483648`. -/
theorem frame_takes_alpha_dimensions :
    (vp8alpha_decode host_ok packet_with_alpha
      (alpha_session (some color2x2) (some alpha4x4))).1 = Outcome.ret 3 ∧
    (vp8alpha_decode host_ok packet_with_alpha
      (alpha_session (some color2x2) (some alpha4x4))).2.got_frame = 1 ∧
    (vp8alpha_decode host_ok packet_with_alpha
      (alpha_session (some color2x2) (some alpha4x4))).2.picture.width = 4 ∧
    (vp8alpha_decode host_ok packet_with_alpha
      (alpha_session (some color2x2) (some alpha4x4))).2.picture.height = 4 ∧
    color2x2.d_w = 2 ∧ color2x2.d_h = 2 ∧
    (vp8_decode host_ok packet_plain
      (session 2 2 AVPixelFormat.YUV420P (engine_yielding (some wide_image)) no_engine)).2.got_frame
        = 1 ∧
    (vp8_decode host_ok packet_plain
      (session 2 2 AVPixelFormat.YUV420P (engine_yielding (some wide_image)) no_engine)).2.picture.width
        = -2147483648 ∧
    wide_image.d_w = 2147483648 := by
  decide

/-! ### What the engines are fed -/

theorem feeds_append (b : Bool) (t1 t2 : List Event) :
    feeds b (t1 ++ t2) = feeds b t1 ++ feeds b t2 := by
  induction t1 with
  | nil => rfl
  | cons e t ih =>
    cases e <;> simp [feeds, ih]
    split_ifs <;> simp

theorem resized_pulled_trace (a : Bool) (host : Host) (f : Feed) (i : vpx_image)
    (m : Machine) :
    (resized host i (pulled a f m)).trace =
      m.trace ++ [Event.decode a f (vpx_codec_decode (m.engine a) f).1,
        Event.get_frame a
          ((vpx_codec_get_frame (vpx_codec_decode (m.engine a) f).2).map vpx_image.info),
        Event.set_dimensions i.width i.height (host.set_dimensions i.width i.height)] := by
  simp

theorem feed_pull_check_feeds (a : Bool) (host : Host) (f : Feed) (m : Machine) :
    ∃ t, (feed_pull_check a host f m).machine.trace = m.trace ++ t ∧
      ∀ b, feeds b t = if a = b then [f] else [] := by
  rcases feed_pull_check_cases a host f m with ⟨_, e⟩ | ⟨_, _, e⟩ |
    ⟨i, _, _, ⟨_, e⟩ | ⟨_, _, e⟩ | ⟨_, _, _, e⟩ | ⟨_, _, _, e⟩⟩ <;> rw [e] <;>
    simp only [Stage.machine]
  · exact ⟨_, fed_trace a f m, fun b => by simp [feeds]⟩
  · exact ⟨_, pulled_trace a f m, fun b => by simp [feeds]⟩
  · exact ⟨_, pulled_trace a f m, fun b => by simp [feeds]⟩
  · exact ⟨_, pulled_trace a f m, fun b => by simp [feeds]⟩
  · exact ⟨_, resized_pulled_trace a host f i m, fun b => by simp [feeds]⟩
  · exact ⟨_, resized_pulled_trace a host f i m, fun b => by simp [feeds]⟩

theorem composite_feeds (host : Host) (avpkt : AVPacket) (img img_alpha : Option vpx_image)
    (m : Machine) :
    ∃ t, (composite host avpkt img img_alpha m).2.trace = m.trace ++ t ∧
      ∀ b, feeds b t = [] := by
  unfold composite
  simp only
  split_ifs
  · exact ⟨_, get_buffer_trace host m, fun b => by simp [feeds]⟩
  · split
    · exact ⟨_, get_buffer_trace host m, fun b => by simp [feeds]⟩
    · rename_i i
      split
      · exact ⟨[Event.get_buffer (ff_get_buffer host m).1, Event.image_copy i.width i.height],
          by simp [Machine.log], fun b => by simp [feeds]⟩
      · split_ifs
        · exact ⟨[Event.get_buffer (ff_get_buffer host m).1, Event.image_copy i.width i.height],
            by simp [Machine.log], fun b => by simp [feeds]⟩
        · split
          · exact ⟨[Event.get_buffer (ff_get_buffer host m).1, Event.image_copy i.width i.height],
              by simp [Machine.log], fun b => by simp [feeds]⟩
          · split <;>
              exact ⟨[Event.get_buffer (ff_get_buffer host m).1,
                  Event.image_copy i.width i.height,
                  Event.image_copy_plane
                    (av_image_get_linesize AVPixelFormat.YUVA420P i.width 3) i.height],
                by simp [Machine.log], fun b => by simp [feeds]⟩

theorem side_data_elems_of_payload (avpkt : AVPacket) (payload : List Nat)
    (h : (av_packet_get_side_data avpkt AVPacketSideDataType.MATROSKA_BLOCKADDITIONAL).1 =
      some payload) :
    avpkt.side_data_elems ≠ 0 ∧
    (av_packet_get_side_data avpkt AVPacketSideDataType.MATROSKA_BLOCKADDITIONAL).2 =
      (payload.length : Int) := by
  unfold av_packet_get_side_data at h ⊢
  unfold AVPacket.side_data_elems
  cases hs : avpkt.side_data with
  | nil => rw [hs] at h; simp at h
  | cons e es =>
    rw [hs] at h
    refine ⟨by simp, ?_⟩
    split at h
    · rename_i e1 he1
      simp only [Option.some.injEq] at h
      simp [h]
    · simp at h

/-- C3, amended. In `vp8alpha_decode`, for every packet carrying a block-additional side
payload of length L with 8 <= L (L fitting its `int` size field): the colour engine is fed
exactly once, with the full packet payload of length `avpkt->size`; the alpha engine is
fed at most once, and exactly once when the colour engine accepts its feed, its image (if
any) is I420 and a dimension-change request for it (if any) succeeds; what the alpha
engine is fed is exactly the bytes of the side payload that follow its first 8 bytes,
in order, with a reported length of exactly L - 8. -/
theorem alpha_feed_skips_header (host : Host) (avpkt : AVPacket) (m : Machine)
    (payload : List Nat)
    (hside : (av_packet_get_side_data avpkt
      AVPacketSideDataType.MATROSKA_BLOCKADDITIONAL).1 = some payload)
    (h8 : 8 ≤ payload.length) (hint : payload.length < 2 ^ 31) :
    feeds false (new_events m (vp8alpha_decode host avpkt m)) = [color_feed avpkt] ∧
    (color_feed avpkt).bytes = some avpkt.data ∧
    ((color_feed avpkt).data_sz : Int) = avpkt.size ∧
    (feeds true (new_events m (vp8alpha_decode host avpkt m)) = [] ∨
      feeds true (new_events m (vp8alpha_decode host avpkt m)) = [alpha_feed avpkt]) ∧
    ((vpx_codec_decode (m.engine false) (color_feed avpkt)).1 = true →
      (∀ i, color_image m avpkt = some i → i.fmt = VPX_IMG_FMT_I420 ∧
        0 ≤ host.set_dimensions i.width i.height) →
      feeds true (new_events m (vp8alpha_decode host avpkt m)) = [alpha_feed avpkt]) ∧
    (alpha_feed avpkt).bytes = some (payload.drop 8) ∧
    (alpha_feed avpkt).data_sz = payload.length - 8 := by
  obtain ⟨hne, hlen⟩ := side_data_elems_of_payload avpkt payload hside
  have hsz : (alpha_feed avpkt).data_sz = payload.length - 8 := by
    simp only [alpha_feed, hlen]
    omega
  have hbytes : (alpha_feed avpkt).bytes = some (payload.drop 8) := by
    unfold Feed.bytes
    have hmem : (alpha_feed avpkt).mem = some payload := hside
    have hoff : (alpha_feed avpkt).off = 8 := rfl
    rw [hmem]
    simp only [hoff, hsz]
    rw [if_pos (by omega)]
    congr 1
    apply List.take_of_length_le
    simp
  have hcol : (color_feed avpkt).bytes = some avpkt.data := by
    simp [Feed.bytes, color_feed]
  obtain ⟨t1, ht1, hf1⟩ := feed_pull_check_feeds false host (color_feed avpkt) m
  refine ⟨?_, hcol, rfl, ?_, ?_, hbytes, hsz⟩
  all_goals
    unfold vp8alpha_decode
    rw [if_neg hne]
  · cases hS : feed_pull_check false host (color_feed avpkt) m with
    | done r =>
      rw [hS] at ht1
      simp only [Stage.machine] at ht1
      simp only [new_events, ht1, List.drop_left]
      simpa using hf1 false
    | next img m1 =>
      rw [hS] at ht1
      simp only [Stage.machine] at ht1
      obtain ⟨t2, ht2, hf2⟩ := feed_pull_check_feeds true host (alpha_feed avpkt) m1
      simp only
      cases hT : feed_pull_check true host (alpha_feed avpkt) m1 with
      | done r =>
        rw [hT] at ht2
        simp only [Stage.machine] at ht2
        simp only [new_events, ht2, ht1, List.append_assoc, List.drop_left, feeds_append]
        simp [hf1 false, hf2 false]
      | next img_alpha m2 =>
        rw [hT] at ht2
        simp only [Stage.machine] at ht2
        obtain ⟨t3, ht3, hf3⟩ := composite_feeds host avpkt img img_alpha m2
        simp only [new_events, ht3, ht2, ht1, List.append_assoc, List.drop_left, feeds_append]
        simp [hf1 false, hf2 false, hf3 false]
  · cases hS : feed_pull_check false host (color_feed avpkt) m with
    | done r =>
      rw [hS] at ht1
      simp only [Stage.machine] at ht1
      left
      simp only [new_events, ht1, List.drop_left]
      simpa using hf1 true
    | next img m1 =>
      rw [hS] at ht1
      simp only [Stage.machine] at ht1
      obtain ⟨t2, ht2, hf2⟩ := feed_pull_check_feeds true host (alpha_feed avpkt) m1
      right
      simp only
      cases hT : feed_pull_check true host (alpha_feed avpkt) m1 with
      | done r =>
        rw [hT] at ht2
        simp only [Stage.machine] at ht2
        simp only [new_events, ht2, ht1, List.append_assoc, List.drop_left, feeds_append]
        simp [hf1 true, hf2 true]
      | next img_alpha m2 =>
        rw [hT] at ht2
        simp only [Stage.machine] at ht2
        obtain ⟨t3, ht3, hf3⟩ := composite_feeds host avpkt img img_alpha m2
        simp only [new_events, ht3, ht2, ht1, List.append_assoc, List.drop_left, feeds_append]
        simp [hf1 true, hf2 true, hf3 true]
  · intro hok himg
    cases hS : feed_pull_check false host (color_feed avpkt) m with
    | done r =>
      exfalso
      rcases feed_pull_check_cases false host (color_feed avpkt) m with ⟨c, _⟩ | ⟨_, _, e⟩ |
        ⟨i, _, hi, ⟨c, _⟩ | ⟨_, _, e⟩ | ⟨_, _, c, _⟩ | ⟨_, _, _, e⟩⟩
      · rw [hok] at c; cases c
      · rw [e] at hS; cases hS
      · exact c (himg i hi).1
      · rw [e] at hS; cases hS
      · exact absurd (himg i hi).2 (not_le.mpr c)
      · rw [e] at hS; cases hS
    | next img m1 =>
      rw [hS] at ht1
      simp only [Stage.machine] at ht1
      obtain ⟨t2, ht2, hf2⟩ := feed_pull_check_feeds true host (alpha_feed avpkt) m1
      simp only
      cases hT : feed_pull_check true host (alpha_feed avpkt) m1 with
      | done r =>
        rw [hT] at ht2
        simp only [Stage.machine] at ht2
        simp only [new_events, ht2, ht1, List.append_assoc, List.drop_left, feeds_append]
        simp [hf1 true, hf2 true]
      | next img_alpha m2 =>
        rw [hT] at ht2
        simp only [Stage.machine] at ht2
        obtain ⟨t3, ht3, hf3⟩ := composite_feeds host avpkt img img_alpha m2
        simp only [new_events, ht3, ht2, ht1, List.append_assoc, List.drop_left, feeds_append]
        simp [hf1 true, hf2 true, hf3 true]

/-- C3, amended, at a concrete packet with a ten-byte side payload: the alpha engine is
fed its last two bytes. -/
theorem alpha_feed_skips_header_witness :
    8 ≤ ([0, 0, 0, 0, 0, 0, 0, 1, 77, 78] : List Nat).length ∧
    feeds true (new_events (alpha_session (some color2x2) (some alpha2x2))
      (vp8alpha_decode host_ok packet_with_alpha
        (alpha_session (some color2x2) (some alpha2x2)))) = [alpha_feed packet_with_alpha] ∧
    (alpha_feed packet_with_alpha).bytes = some [77, 78] ∧
    (alpha_feed packet_with_alpha).data_sz = 2 :=
  have h := alpha_feed_skips_header host_ok packet_with_alpha
    (alpha_session (some color2x2) (some alpha2x2)) [0, 0, 0, 0, 0, 0, 0, 1, 77, 78]
    rfl (by decide) (by decide)
  ⟨by decide, h.2.2.2.2.1 (by decide) (fun i hi => by
      have h2 : i = color2x2 := by
        have h3 : color_image (alpha_session (some color2x2) (some alpha2x2))
            packet_with_alpha = some color2x2 := rfl
        rw [h3] at hi
        exact (Option.some.inj hi).symm
      subst h2
      exact ⟨rfl, le_refl 0⟩),
    h.2.2.2.2.2.1, h.2.2.2.2.2.2⟩

/-! ### Dimensions of the output frame -/

theorem alloc_copy_frame (host : Host) (avpkt : AVPacket) (img : vpx_image) (m m1 : Machine)
    (v : Int) (h : alloc_copy host avpkt img m = (Outcome.ret v, m1)) (hv : 0 ≤ v) :
    m1.picture.width = m.avctx.width ∧ m1.picture.height = m.avctx.height ∧
    m1.got_frame = 1 ∧ m1.avctx = m.avctx := by
  unfold alloc_copy at h
  simp only at h
  split_ifs at h with hg
  · cases h; exact absurd hv (not_le.mpr hg)
  · split at h
    · cases h
    · rename_i pic hp
      cases h
      obtain ⟨hw, hh⟩ := av_image_copy_dims _ _ _ _ _ _ hp
      refine ⟨?_, ?_, rfl, rfl⟩
      · rw [hw]; exact get_buffer_width host m (not_lt.mp hg)
      · rw [hh]; exact get_buffer_height host m (not_lt.mp hg)

theorem composite_frame (host : Host) (avpkt : AVPacket) (img img_alpha : Option vpx_image)
    (m m1 : Machine) (v : Int)
    (h : composite host avpkt img img_alpha m = (Outcome.ret v, m1)) (hv : 0 ≤ v) :
    m1.picture.width = m.avctx.width ∧ m1.picture.height = m.avctx.height ∧
    m1.got_frame = 1 := by
  unfold composite at h
  simp only at h
  split_ifs at h with hg
  · cases h; exact absurd hv (not_le.mpr hg)
  · split at h
    · cases h
    · split at h
      · cases h
      · rename_i pic hp
        obtain ⟨hw, hh⟩ := av_image_copy_dims _ _ _ _ _ _ hp
        split_ifs at h
        · cases h; exact absurd hv (by decide)
        · split at h
          · cases h
          · split at h
            · cases h
            · cases h
              refine ⟨?_, ?_, rfl⟩
              · show pic.width = _
                rw [hw]; exact get_buffer_width host m (not_lt.mp hg)
              · show pic.height = _
                rw [hh]; exact get_buffer_height host m (not_lt.mp hg)

theorem vp8_decode_frame (host : Host) (avpkt : AVPacket) (m m1 : Machine) (v : Int)
    (i : vpx_image) (h : vp8_decode host avpkt m = (Outcome.ret v, m1)) (hv : 0 ≤ v)
    (hi : color_image m avpkt = some i) :
    m1.picture.width = i.width ∧ m1.picture.height = i.height ∧ m1.got_frame = 1 ∧
    m1.avctx.height = i.height := by
  unfold vp8_decode at h
  cases hS : feed_pull_check false host (color_feed avpkt) m with
  | done r =>
    rw [hS] at h
    simp only at h
    obtain ⟨v1, hr, hneg⟩ := (feed_pull_check_done _ _ _ _ _ hS).1
    rw [h] at hr
    cases hr
    exact absurd hv (not_le.mpr hneg)
  | next img m2 =>
    rw [hS] at h
    obtain ⟨_, _, himg, hd, _⟩ := feed_pull_check_next _ _ _ _ _ _ hS
    have himg2 : img = some i := by rw [himg]; exact hi
    subst himg2
    simp only at h
    obtain ⟨hw, hh, hg, ha⟩ := alloc_copy_frame host avpkt i m2 m1 v h hv
    obtain ⟨_, hdw, hdh⟩ := hd i rfl
    exact ⟨hw.trans hdw, hh.trans hdh, hg, by rw [ha]; exact hdh⟩

/-- The frame of a successful call has the size of the colour image as the adapter reads
it, `(int) d_w` by `(int) d_h`, when in State B the alpha image has the same size. -/
theorem output_frame_dims (alpha : Bool) (host : Host) (avpkt : AVPacket)
    (m m1 : Machine) (v : Int) (i : vpx_image)
    (hdec : decode_fn alpha host avpkt m = (Outcome.ret v, m1)) (hv : 0 ≤ v)
    (hi : color_image m avpkt = some i)
    (hsame : alpha = true → avpkt.side_data_elems ≠ 0 →
      ∀ a, alpha_image m avpkt = some a → a.d_w = i.d_w ∧ a.d_h = i.d_h) :
    m1.got_frame = 1 ∧ m1.picture.width = i.width ∧ m1.picture.height = i.height := by
  cases alpha with
  | false =>
    obtain ⟨hw, hh, hg, _⟩ := vp8_decode_frame host avpkt m m1 v i hdec hv hi
    exact ⟨hg, hw, hh⟩
  | true =>
    simp only [decode_fn, if_true] at hdec
    unfold vp8alpha_decode at hdec
    by_cases hside : avpkt.side_data_elems = 0
    · rw [if_pos hside] at hdec
      split at hdec
      · rename_i hc; rw [hdec] at hc; cases hc
      · rename_i ret hret
        split_ifs at hdec with hneg
        · rw [hdec] at hret
          cases hret
          exact absurd hv (not_le.mpr hneg)
        · simp only at hdec
          have hA : vp8_decode host avpkt m = (Outcome.ret ret, (vp8_decode host avpkt m).2) := by
            rw [← hret]
          obtain ⟨hw, hh, hg, _⟩ :=
            vp8_decode_frame host avpkt m _ ret i hA (not_lt.mp hneg) hi
          split at hdec
          · cases hdec
          · cases hdec
            exact ⟨hg, hw, hh⟩
    · rw [if_neg hside] at hdec
      cases hS : feed_pull_check false host (color_feed avpkt) m with
      | done r =>
        rw [hS] at hdec
        simp only at hdec
        obtain ⟨v1, hr, hneg⟩ := (feed_pull_check_done _ _ _ _ _ hS).1
        rw [hdec] at hr
        cases hr
        exact absurd hv (not_le.mpr hneg)
      | next img m2 =>
        rw [hS] at hdec
        simp only at hdec
        obtain ⟨_, _, himg, hd, _⟩ := feed_pull_check_next _ _ _ _ _ _ hS
        have himg2 : img = some i := by rw [himg]; exact hi
        subst himg2
        obtain ⟨_, hdw, hdh⟩ := hd i rfl
        have hoth := feed_pull_check_other false true host (color_feed avpkt) m (by decide)
        rw [hS] at hoth
        simp only [Stage.machine] at hoth
        cases hT : feed_pull_check true host (alpha_feed avpkt) m2 with
        | done r =>
          rw [hT] at hdec
          simp only at hdec
          obtain ⟨v1, hr, hneg⟩ := (feed_pull_check_done _ _ _ _ _ hT).1
          rw [hdec] at hr
          cases hr
          exact absurd hv (not_le.mpr hneg)
        | next img_alpha m3 =>
          rw [hT] at hdec
          simp only at hdec
          obtain ⟨_, _, hima, hda, hna⟩ := feed_pull_check_next _ _ _ _ _ _ hT
          obtain ⟨hw, hh, hg⟩ := composite_frame host avpkt _ _ m3 m1 v hdec hv
          have hdims : m3.avctx.width = i.width ∧ m3.avctx.height = i.height := by
            cases img_alpha with
            | none =>
              obtain ⟨h1, h2⟩ := hna rfl
              exact ⟨h1.trans hdw, h2.trans hdh⟩
            | some a =>
              obtain ⟨_, h1, h2⟩ := hda a rfl
              have ha : alpha_image m avpkt = some a := by
                unfold alpha_image
                rw [← hoth]
                exact hima.symm
              obtain ⟨e1, e2⟩ := hsame rfl hside a ha
              rw [h1, h2]
              unfold vpx_image.width vpx_image.height
              rw [e1, e2]
              exact ⟨rfl, rfl⟩
          exact ⟨hg, hw.trans hdims.1, hh.trans hdims.2⟩

theorem int_cast_of_lt (x : Nat) (h : x < 2 ^ 31) : int_cast x = (x : Int) := by
  unfold int_cast
  have h1 : x % 2 ^ 32 = x := Nat.mod_eq_of_lt (by omega)
  rw [h1, if_pos h]

/-- C7, amended. With a host whose successful `ff_set_dimensions(w, h)` sets the session's
width and height and whose `ff_get_buffer` allocates a frame of the session's current
size: for every decode call that returns successfully after the colour engine yielded
an image (`vp8_decode`, and `vp8alpha_decode` in State A and in State B), provided that
the colour image's `d_w` and `d_h` are below 2^31 (so that the `(int)` casts of the source
keep them) and that in State B the alpha image's decoded size equals the colour image's,
the produced-frame flag is set and the allocated output frame's width and height equal
the colour image's decoded width and height. -/
theorem output_frame_has_color_dims (alpha : Bool) (host : Host) (avpkt : AVPacket)
    (m m1 : Machine) (v : Int) (i : vpx_image)
    (hdec : decode_fn alpha host avpkt m = (Outcome.ret v, m1)) (hv : 0 ≤ v)
    (hi : color_image m avpkt = some i)
    (hbw : i.d_w < 2 ^ 31) (hbh : i.d_h < 2 ^ 31)
    (hsame : alpha = true → avpkt.side_data_elems ≠ 0 →
      ∀ a, alpha_image m avpkt = some a → a.d_w = i.d_w ∧ a.d_h = i.d_h) :
    m1.got_frame = 1 ∧ m1.picture.width = (i.d_w : Int) ∧
    m1.picture.height = (i.d_h : Int) := by
  obtain ⟨hg, hw, hh⟩ := output_frame_dims alpha host avpkt m m1 v i hdec hv hi hsame
  refine ⟨hg, ?_, ?_⟩
  · rw [hw]; exact int_cast_of_lt _ hbw
  · rw [hh]; exact int_cast_of_lt _ hbh

/-- C7, amended, at a concrete State B call with a 2x2 colour and a 2x2 alpha image. -/
theorem output_frame_has_color_dims_witness :
    (vp8alpha_decode host_ok packet_with_alpha
      (alpha_session (some color2x2) (some alpha2x2))).2.picture.width = 2 ∧
    (vp8alpha_decode host_ok packet_with_alpha
      (alpha_session (some color2x2) (some alpha2x2))).2.picture.height = 2 :=
  (output_frame_has_color_dims true host_ok packet_with_alpha
    (alpha_session (some color2x2) (some alpha2x2)) _ 3 color2x2
    (Prod.ext (by decide) rfl) (by decide) rfl (by decide) (by decide)
    (fun _ _ a ha => by
      have h3 : alpha_image (alpha_session (some color2x2) (some alpha2x2))
          packet_with_alpha = some alpha2x2 := rfl
      rw [h3] at ha
      cases ha
      exact ⟨rfl, rfl⟩)).2

/-! ### Dimension-change requests -/

theorem pull_events_quiet (a : Bool) (f : Feed) (m : Machine) :
    (∀ e ∈ pull_events a f m, e.is_get_buffer = false) ∧
    dim_requests (pull_events a f m) = [] := by
  simp [pull_events, Event.is_get_buffer, dim_requests]

theorem dim_requests_append (t1 t2 : List Event) :
    dim_requests (t1 ++ t2) = dim_requests t1 ++ dim_requests t2 := by
  induction t1 with
  | nil => rfl
  | cons e t ih => cases e <;> simp [dim_requests, ih]

theorem alloc_copy_events (host : Host) (avpkt : AVPacket) (img : vpx_image) (m : Machine) :
    ∃ t, (alloc_copy host avpkt img m).2.trace = m.trace ++ t ∧ dim_requests t = [] ∧
      (alloc_copy host avpkt img m).2.avctx = m.avctx ∧
      ((ff_get_buffer host m).1 < 0 →
        (alloc_copy host avpkt img m).1 = Outcome.ret (ff_get_buffer host m).1) := by
  unfold alloc_copy
  simp only
  split_ifs with hg
  · exact ⟨_, get_buffer_trace host m, by simp [dim_requests], rfl, fun _ => rfl⟩
  · split <;>
      exact ⟨[Event.get_buffer (ff_get_buffer host m).1, Event.image_copy img.width img.height],
        by simp [Machine.log], by simp [dim_requests], rfl, fun h => absurd h hg⟩

/-- What one `vp8_decode` call does when the colour engine accepts the feed and yields an
I420 image. -/
theorem vp8_decode_requests (host : Host) (avpkt : AVPacket) (m : Machine) (i : vpx_image)
    (hok : (vpx_codec_decode (m.engine false) (color_feed avpkt)).1 = true)
    (hi : color_image m avpkt = some i) (hfmt : i.fmt = VPX_IMG_FMT_I420) :
    ∃ pre post, (vp8_decode host avpkt m).2.trace = m.trace ++ (pre ++ post) ∧
      (∀ e ∈ pre, e.is_get_buffer = false) ∧ dim_requests post = [] ∧
      dim_requests pre = (if differs i m then [(i.width, i.height)] else []) ∧
      (differs i m → host.set_dimensions i.width i.height < 0 →
        post = [] ∧
        (vp8_decode host avpkt m).1 = Outcome.ret (host.set_dimensions i.width i.height)) ∧
      ((differs i m → 0 ≤ host.set_dimensions i.width i.height) →
        (vp8_decode host avpkt m).2.avctx.width = i.width ∧
        (vp8_decode host avpkt m).2.avctx.height = i.height) := by
  have hi2 : vpx_codec_get_frame (vpx_codec_decode (m.engine false) (color_feed avpkt)).2 =
      some i := hi
  have hinfo : Event.is_get_buffer (Event.get_frame false (some i.info)) = false := rfl
  unfold vp8_decode
  rcases feed_pull_check_cases false host (color_feed avpkt) m with ⟨c, _⟩ | ⟨_, c, _⟩ |
    ⟨j, _, hj, ⟨c, _⟩ | ⟨_, hd, e⟩ | ⟨_, hd, hneg, e⟩ | ⟨_, hd, hpos, e⟩⟩
  · rw [hok] at c; cases c
  · rw [hi2] at c; cases c
  · rw [hi2] at hj; cases hj; exact absurd hfmt c
  · rw [hi2] at hj; cases hj
    rw [e]
    simp only
    have hd2 : ¬ differs i m := hd
    obtain ⟨t, ht, hr, ha, _⟩ := alloc_copy_events host avpkt i (pulled false (color_feed avpkt) m)
    refine ⟨pull_events false (color_feed avpkt) m, t, ?_,
      (pull_events_quiet _ _ _).1, hr, ?_, fun h => absurd h hd2, fun _ => ?_⟩
    · rw [ht, pulled_trace, List.append_assoc]; rfl
    · rw [(pull_events_quiet _ _ _).2, if_neg hd2]
    · rw [ha]
      unfold differs at hd2
      simp only [ne_eq, not_or, not_not] at hd2
      exact ⟨hd2.1.symm, hd2.2.symm⟩
  · rw [hi2] at hj; cases hj
    rw [e]
    simp only
    have hd2 : differs i m := hd
    refine ⟨pull_events false (color_feed avpkt) m ++
        [Event.set_dimensions i.width i.height (host.set_dimensions i.width i.height)], [], ?_, ?_, rfl,
      ?_, fun _ _ => ⟨rfl, trivial⟩, fun h => ?_⟩
    · rw [resized_pulled_trace, List.append_nil]; rfl
    · simp [pull_events, Event.is_get_buffer]
    · rw [dim_requests_append, (pull_events_quiet _ _ _).2, if_pos hd2]; rfl
    · exact absurd (h hd2) (not_le.mpr hneg)
  · rw [hi2] at hj; cases hj
    rw [e]
    simp only
    have hd2 : differs i m := hd
    obtain ⟨t, ht, hr, ha, _⟩ :=
      alloc_copy_events host avpkt i (resized host i (pulled false (color_feed avpkt) m))
    refine ⟨pull_events false (color_feed avpkt) m ++
        [Event.set_dimensions i.width i.height (host.set_dimensions i.width i.height)], t, ?_, ?_, hr,
      ?_, fun _ h => absurd hpos (not_le.mpr h), fun _ => ?_⟩
    · rw [ht, resized_pulled_trace, List.append_assoc]; rfl
    · simp [pull_events, Event.is_get_buffer]
    · rw [dim_requests_append, (pull_events_quiet _ _ _).2, if_pos hd2]; rfl
    · rw [ha]
      exact ⟨resized_width host i _ hpos, resized_height host i _ hpos⟩

theorem yields_sizes_cons (w h : Int) (c : Host × AVPacket) (cs : List (Host × AVPacket))
    (m : Machine) (hy : yields_sizes w h (c :: cs) m = true) :
    (vpx_codec_decode (m.engine false) (color_feed c.2)).1 = true ∧
    (∃ i, color_image m c.2 = some i ∧ i.fmt = VPX_IMG_FMT_I420 ∧
      i.width = w ∧ i.height = h) ∧
    0 ≤ c.1.set_dimensions w h ∧
    (vp8_decode c.1 c.2 m).1 ≠ Outcome.crash ∧
    yields_sizes w h cs (vp8_decode c.1 c.2 m).2 = true := by
  unfold yields_sizes at hy
  simp only [Bool.and_eq_true, decide_eq_true_eq] at hy
  obtain ⟨⟨⟨⟨h1, h2⟩, h3⟩, h4⟩, h5⟩ := hy
  refine ⟨h1, ?_, h3, h4, h5⟩
  cases hc : color_image m c.2 with
  | none => rw [hc] at h2; simp at h2
  | some i =>
    rw [hc] at h2
    simp only [decide_eq_true_eq] at h2
    exact ⟨i, rfl, h2⟩

theorem decode_seq_cons (c : Host × AVPacket) (cs : List (Host × AVPacket)) (m : Machine)
    (hc : (vp8_decode c.1 c.2 m).1 ≠ Outcome.crash) :
    decode_seq (c :: cs) m = decode_seq cs (vp8_decode c.1 c.2 m).2 := by
  cases h : (vp8_decode c.1 c.2 m).1 with
  | crash => exact absurd h hc
  | ret v => simp only [decode_seq, h]

/-- One call whose image has the session's size issues no request and keeps the size. -/
theorem same_size_call (w h : Int) (c : Host × AVPacket) (cs : List (Host × AVPacket))
    (m : Machine) (hy : yields_sizes w h (c :: cs) m = true)
    (hw : m.avctx.width = w) (hh : m.avctx.height = h) :
    ∃ t, (vp8_decode c.1 c.2 m).2.trace = m.trace ++ t ∧ dim_requests t = [] ∧
      (vp8_decode c.1 c.2 m).2.avctx.width = w ∧ (vp8_decode c.1 c.2 m).2.avctx.height = h := by
  obtain ⟨hok, ⟨i, hi, hfmt, hiw, hih⟩, _, _, _⟩ := yields_sizes_cons w h c cs m hy
  obtain ⟨pre, post, ht, _, hpost, hpre, _, hdim⟩ := vp8_decode_requests c.1 c.2 m i hok hi hfmt
  have hnd : ¬ differs i m := by
    unfold differs
    rw [hw, hh, hiw, hih]
    simp
  rw [if_neg hnd] at hpre
  obtain ⟨h1, h2⟩ := hdim (fun hd => absurd hd hnd)
  exact ⟨pre ++ post, ht, by rw [dim_requests_append, hpre, hpost]; rfl,
    by rw [h1, hiw], by rw [h2, hih]⟩

/-- A run of calls whose images all have the session's size issues no request. -/
theorem same_size_run (w h : Int) (cs : List (Host × AVPacket)) :
    ∀ m : Machine, yields_sizes w h cs m = true → m.avctx.width = w → m.avctx.height = h →
      ∃ t, (decode_seq cs m).trace = m.trace ++ t ∧ dim_requests t = [] ∧
        (decode_seq cs m).avctx.width = w ∧ (decode_seq cs m).avctx.height = h := by
  induction cs with
  | nil =>
    intro m _ hw hh
    exact ⟨[], by simp [decode_seq], rfl, hw, hh⟩
  | cons c cs ih =>
    intro m hy hw hh
    obtain ⟨_, _, _, hnc, hrest⟩ := yields_sizes_cons w h c cs m hy
    obtain ⟨t1, ht1, hr1, hw1, hh1⟩ := same_size_call w h c cs m hy hw hh
    obtain ⟨t2, ht2, hr2, hw2, hh2⟩ := ih _ hrest hw1 hh1
    rw [decode_seq_cons c cs m hnc]
    exact ⟨t1 ++ t2, by rw [ht2, ht1, List.append_assoc],
      by rw [dim_requests_append, hr1, hr2]; rfl, hw2, hh2⟩

theorem decode_seq_append (w h : Int) (cs ds : List (Host × AVPacket)) :
    ∀ m : Machine, yields_sizes w h cs m = true →
      decode_seq (cs ++ ds) m = decode_seq ds (decode_seq cs m) := by
  induction cs with
  | nil => intro m _; rfl
  | cons c cs ih =>
    intro m hy
    obtain ⟨_, _, _, hnc, hrest⟩ := yields_sizes_cons w h c cs m hy
    rw [List.cons_append, decode_seq_cons c _ m hnc, decode_seq_cons c cs m hnc]
    exact ih _ hrest

/-- C8 as stated fails: on a 2x2 session whose engine yields a 2x2 image and then 4x4
images, with a host that refuses the dimension-change request, the request for 4x4 is
issued again on the packet that follows the first 4x4 packet: two requests, not one.
Also, for an image with `d_w = 2^31` the request is for `(int) d_w = -2147483648`. -/
theorem request_repeated_after_refusal :
    dim_requests ((decode_seq [(host_ok, packet_plain), (host_refusing, packet_plain),
      (host_refusing, packet_plain)] resizing_session).trace.drop
        resizing_session.trace.length) = [(4, 4), (4, 4)] ∧
    dim_requests (new_events
      (session 2 2 AVPixelFormat.YUV420P (engine_yielding (some wide_image)) no_engine)
      (vp8_decode host_ok packet_plain
        (session 2 2 AVPixelFormat.YUV420P (engine_yielding (some wide_image)) no_engine))) =
      [(-2147483648, 2)] := by
  decide

/-- C8, amended. In `vp8_decode`, for every packet that the colour engine accepts and for
which it yields an I420 image: a dimension-change request
`ff_set_dimensions((int) d_w, (int) d_h)` is issued if and only if `((int) d_w, (int) d_h)`
differs from the session's current `(width, height)`, and it is then the only one; every
request lies in a part of the trace that precedes the `ff_get_buffer` call; if the request
fails, the call returns its error and allocates nothing.  Consequently, when the packets
before this one all yield images of the session's size, this packet's image has a
different size, the packets after it all yield images of the new size, the host grants
the request and no call ends in an invalid access, exactly one request is issued over
the whole sequence: none before this packet, one at it, none after it. -/
theorem dimension_change_requested_once (host : Host) (avpkt : AVPacket) (m : Machine)
    (i : vpx_image)
    (hok : (vpx_codec_decode (m.engine false) (color_feed avpkt)).1 = true)
    (hi : color_image m avpkt = some i) (hfmt : i.fmt = VPX_IMG_FMT_I420) :
    dim_requests (new_events m (vp8_decode host avpkt m)) =
      (if differs i m then [(i.width, i.height)] else []) ∧
    (∃ pre post, new_events m (vp8_decode host avpkt m) = pre ++ post ∧
      (∀ e ∈ pre, e.is_get_buffer = false) ∧ dim_requests post = []) ∧
    (differs i m → host.set_dimensions i.width i.height < 0 →
      (vp8_decode host avpkt m).1 = Outcome.ret (host.set_dimensions i.width i.height) ∧
      ∀ e ∈ new_events m (vp8_decode host avpkt m), e.is_get_buffer = false) ∧
    (∀ (before after : List (Host × AVPacket)) (m0 : Machine),
      yields_sizes m0.avctx.width m0.avctx.height before m0 = true →
      decode_seq before m0 = m →
      differs i m → 0 ≤ host.set_dimensions i.width i.height →
      (vp8_decode host avpkt m).1 ≠ Outcome.crash →
      yields_sizes i.width i.height after (vp8_decode host avpkt m).2 = true →
      dim_requests ((decode_seq before m0).trace.drop m0.trace.length) = [] ∧
      dim_requests ((decode_seq after (vp8_decode host avpkt m).2).trace.drop
        (vp8_decode host avpkt m).2.trace.length) = [] ∧
      dim_requests ((decode_seq (before ++ (host, avpkt) :: after) m0).trace.drop
        m0.trace.length) = [(i.width, i.height)]) := by
  obtain ⟨pre, post, ht, hpre, hpost, hreq, hfail, hdim⟩ :=
    vp8_decode_requests host avpkt m i hok hi hfmt
  have hne : new_events m (vp8_decode host avpkt m) = pre ++ post := by
    simp [new_events, ht]
  refine ⟨?_, ⟨pre, post, hne, hpre, hpost⟩, ?_, ?_⟩
  · rw [hne, dim_requests_append, hpost, hreq, List.append_nil]
  · intro hd hneg
    obtain ⟨hp, hr⟩ := hfail hd hneg
    refine ⟨hr, ?_⟩
    intro e he
    rw [hne, hp, List.append_nil] at he
    exact hpre e he
  · intro before after m0 hyb hm hd hpos hnc hya
    obtain ⟨t1, ht1, hr1, hw1, hh1⟩ := same_size_run _ _ before m0 hyb rfl rfl
    obtain ⟨hw2, hh2⟩ := hdim (fun _ => hpos)
    obtain ⟨t3, ht3, hr3, _, _⟩ := same_size_run _ _ after _ hya hw2 hh2
    refine ⟨?_, ?_, ?_⟩
    · rw [ht1, List.drop_left, hr1]
    · rw [ht3, List.drop_left, hr3]
    · rw [decode_seq_append _ _ before _ m0 hyb, hm,
        decode_seq_cons (host, avpkt) after m hnc, ht3, ht]
      rw [← hm, ht1]
      simp only [List.append_assoc, List.drop_left, dim_requests_append]
      rw [hr1, hr3, hpost, hreq, if_pos hd]
      rfl

/-- C8, amended, at a concrete sequence of three packets on a 2x2 session whose engine yields a 2x2
image and then 4x4 images: exactly one request, for 4x4, is issued. -/
theorem dimension_change_requested_once_witness :
    dim_requests ((decode_seq [(host_ok, packet_plain), (host_ok, packet_plain),
      (host_ok, packet_plain)] resizing_session).trace.drop
        resizing_session.trace.length) = [(4, 4)] :=
  (dimension_change_requested_once host_ok packet_plain
    (decode_seq [(host_ok, packet_plain)] resizing_session) color4x4
    (by decide) rfl rfl).2.2.2 [(host_ok, packet_plain)] [(host_ok, packet_plain)]
    resizing_session (by decide) rfl (by decide) (by decide) (by decide) (by decide) |>.2.2

/-! ### The opaque fill of State A and the plane copies -/

theorem memset_spec (b b1 : Buffer) (p : Int) (v n : Nat) (h : memset b p v n = some b1) :
    b1.size = b.size ∧ (n ≠ 0 → b.inb p n) ∧
    ∀ x, b1.byte x = if p ≤ x ∧ x < p + (n : Int) then v else b.byte x := by
  unfold memset at h
  split_ifs at h with h0 h1
  · cases h
    subst h0
    refine ⟨rfl, fun c => absurd rfl c, fun x => ?_⟩
    rw [if_neg]
    omega
  · cases h
    exact ⟨rfl, fun _ => h1, fun x => rfl⟩

theorem memset_some (b : Buffer) (p : Int) (v n : Nat) (h : b.inb p n) :
    ∃ b1, memset b p v n = some b1 := by
  unfold memset
  split_ifs
  · exact ⟨_, rfl⟩
  · exact ⟨_, rfl⟩

/-- The fill loop with a positive line size: it succeeds when the rows fit, and sets
exactly the bytes of the block `[p, p + n * s)` to 0xFF. -/
theorem fill_alpha_pos (s : Int) (hs : 0 < s) :
    ∀ (n : Nat) (b : Buffer) (p : Int), 0 ≤ p → p + (n : Int) * s ≤ (b.size : Int) →
      ∃ b1, fill_alpha s n (some b) p = some (some b1) ∧ b1.size = b.size ∧
        ∀ x, b1.byte x = if p ≤ x ∧ x < p + (n : Int) * s then 255 else b.byte x := by
  intro n
  induction n with
  | zero =>
    intro b p _ _
    refine ⟨b, rfl, rfl, fun x => ?_⟩
    rw [if_neg]
    simp
  | succ n ih =>
    intro b p hp hfit
    have e : ((n + 1 : Nat) : Int) * s = (n : Int) * s + s := by push_cast; ring
    rw [e] at hfit
    have hk : 0 ≤ (n : Int) * s := mul_nonneg (by omega) (le_of_lt hs)
    have habs : ((FFABS s : Nat) : Int) = s := by unfold FFABS; omega
    have hin : b.inb p (FFABS s) := by unfold Buffer.inb; omega
    obtain ⟨b1, hb1⟩ := memset_some b p 255 (FFABS s) hin
    obtain ⟨hsz, _, hbyte⟩ := memset_spec b b1 p 255 (FFABS s) hb1
    obtain ⟨b2, hb2, hsz2, hbyte2⟩ := ih b1 (p + s) (by omega) (by rw [hsz]; omega)
    refine ⟨b2, ?_, by rw [hsz2, hsz], fun x => ?_⟩
    · simp only [fill_alpha, hb1]
      exact hb2
    · rw [hbyte2, hbyte, habs, e]
      by_cases c1 : p + s ≤ x ∧ x < p + s + (n : Int) * s
      · rw [if_pos c1, if_pos (by omega)]
      · rw [if_neg c1]
        by_cases c2 : p ≤ x ∧ x < p + s
        · rw [if_pos c2, if_pos (by omega)]
        · rw [if_neg c2, if_neg (by omega)]

/-- The fill loop with a negative line size: the rows descend from `p`; it succeeds when
they fit, and sets exactly the bytes of the block `[p + (n - 1) * s, p - s)` to 0xFF. -/
theorem fill_alpha_neg (s : Int) (hs : s < 0) :
    ∀ (n : Nat) (b : Buffer) (p : Int),
      (n = 0 ∨ (0 ≤ p + ((n : Int) - 1) * s ∧ p - s ≤ (b.size : Int))) →
      ∃ b1, fill_alpha s n (some b) p = some (some b1) ∧ b1.size = b.size ∧
        ∀ x, b1.byte x =
          if p + ((n : Int) - 1) * s ≤ x ∧ x < p - s then 255 else b.byte x := by
  intro n
  induction n with
  | zero =>
    intro b p _
    refine ⟨b, rfl, rfl, fun x => ?_⟩
    rw [if_neg]
    simp only [Nat.cast_zero, zero_sub, neg_mul, one_mul]
    omega
  | succ n ih =>
    intro b p hfit
    have e : (((n + 1 : Nat) : Int) - 1) * s = (n : Int) * s := by push_cast; ring
    have e2 : ((n : Int) - 1) * s = (n : Int) * s - s := by ring
    rcases hfit with h0 | ⟨hlo, hhi⟩
    · cases h0
    rw [e] at hlo
    have hk : (n : Int) * s ≤ 0 := mul_nonpos_of_nonneg_of_nonpos (by omega) (le_of_lt hs)
    have habs : ((FFABS s : Nat) : Int) = -s := by unfold FFABS; omega
    have hin : b.inb p (FFABS s) := by unfold Buffer.inb; omega
    obtain ⟨b1, hb1⟩ := memset_some b p 255 (FFABS s) hin
    obtain ⟨hsz, _, hbyte⟩ := memset_spec b b1 p 255 (FFABS s) hb1
    obtain ⟨b2, hb2, hsz2, hbyte2⟩ := ih b1 (p + s) (by
      right
      rw [e2, hsz]
      omega)
    refine ⟨b2, ?_, by rw [hsz2, hsz], fun x => ?_⟩
    · simp only [fill_alpha, hb1]
      exact hb2
    · rw [hbyte2, hbyte, habs, e, e2]
      by_cases c1 : p + s + ((n : Int) * s - s) ≤ x ∧ x < p + s - s
      · rw [if_pos c1, if_pos (by omega)]
      · rw [if_neg c1]
        by_cases c2 : p ≤ x ∧ x < p + -s
        · rw [if_pos c2, if_pos (by omega)]
        · rw [if_neg c2, if_neg (by omega)]

theorem memcpy_spec (dst src d1 : Buffer) (dp sp : Int) (n : Nat)
    (h : memcpy dst dp src sp n = some d1) :
    ∀ x, d1.byte x =
      if dp ≤ x ∧ x < dp + (n : Int) then src.byte (sp + (x - dp)) else dst.byte x := by
  unfold memcpy at h
  split_ifs at h with h0 h1
  · cases h
    subst h0
    intro x
    rw [if_neg]
    omega
  · cases h
    intro x; rfl

/-- With a non-negative destination line size, the row loop writes nothing below its
starting pointer. -/
theorem copy_rows_below (bw : Nat) (dl sl : Int) (src : Buffer) (hdl : 0 ≤ dl) :
    ∀ (n : Nat) (d d1 : Buffer) (dp sp : Int),
      copy_rows bw dl sl src n d dp sp = some d1 → ∀ x, x < dp → d1.byte x = d.byte x := by
  intro n
  induction n with
  | zero =>
    intro d d1 dp sp h x _
    simp only [copy_rows] at h
    cases h; rfl
  | succ n ih =>
    intro d d1 dp sp h x hx
    simp only [copy_rows] at h
    split at h
    · cases h
    · rename_i d2 hm
      rw [ih d2 d1 _ _ h x (by omega), memcpy_spec _ _ _ _ _ _ hm x, if_neg (by omega)]

/-- With a non-positive destination line size, the row loop writes nothing at or above
the end of its first row. -/
theorem copy_rows_above (bw : Nat) (dl sl : Int) (src : Buffer) (hdl : dl ≤ 0) :
    ∀ (n : Nat) (d d1 : Buffer) (dp sp : Int),
      copy_rows bw dl sl src n d dp sp = some d1 →
      ∀ x, dp + (bw : Int) ≤ x → d1.byte x = d.byte x := by
  intro n
  induction n with
  | zero =>
    intro d d1 dp sp h x _
    simp only [copy_rows] at h
    cases h; rfl
  | succ n ih =>
    intro d d1 dp sp h x hx
    simp only [copy_rows] at h
    split at h
    · cases h
    · rename_i d2 hm
      rw [ih d2 d1 _ _ h x (by omega), memcpy_spec _ _ _ _ _ _ hm x, if_neg (by omega)]

/-- The row loop copies: when the destination line size covers the row width, every byte
of every row of the result equals the source byte at the same row and column. -/
theorem copy_rows_sample (bw : Nat) (dl sl : Int) (src : Buffer)
    (hcov : (bw : Int) ≤ dl ∨ dl ≤ -(bw : Int)) :
    ∀ (n : Nat) (d d1 : Buffer) (dp sp : Int),
      copy_rows bw dl sl src n d dp sp = some d1 →
      ∀ r c : Nat, r < n → c < bw →
        d1.byte (dp + (r : Int) * dl + (c : Int)) = src.byte (sp + (r : Int) * sl + (c : Int)) := by
  intro n
  induction n with
  | zero => intro d d1 dp sp _ r c hr _; omega
  | succ n ih =>
    intro d d1 dp sp h r c hr hc
    simp only [copy_rows] at h
    split at h
    · cases h
    · rename_i d2 hm
      cases r with
      | zero =>
        simp only [Nat.cast_zero, zero_mul, add_zero]
        have hun : d1.byte (dp + (c : Int)) = d2.byte (dp + (c : Int)) := by
          rcases hcov with hpos | hneg
          · exact copy_rows_below bw dl sl src (by omega) n d2 d1 _ _ h _ (by omega)
          · exact copy_rows_above bw dl sl src (by omega) n d2 d1 _ _ h _ (by omega)
        rw [hun, memcpy_spec _ _ _ _ _ _ hm, if_pos (by omega)]
        congr 1
        omega
      | succ r =>
        have h1 := ih d2 d1 _ _ h r c (by omega) hc
        have e1 : dp + ((r + 1 : Nat) : Int) * dl + (c : Int) =
            dp + dl + (r : Int) * dl + (c : Int) := by push_cast; ring
        have e2 : sp + ((r + 1 : Nat) : Int) * sl + (c : Int) =
            sp + sl + (r : Int) * sl + (c : Int) := by push_cast; ring
        rw [e1, e2]
        exact h1

/-- A plane copy between two present planes copies every sample of the copied rows; the
source is read with the line size passed to the call. -/
theorem av_image_copy_plane_sample (dst src p1 : Plane) (sl : Int) (bw : Nat) (h : Int)
    (hc : av_image_copy_plane dst src sl bw h = some p1)
    (hd : p1.mem ≠ none) (hs : src.mem ≠ none) :
    ∀ r c : Nat, r < h.toNat → c < bw →
      p1.sample r c = ({ src with linesize := sl } : Plane).sample r c := by
  unfold av_image_copy_plane at hc
  split at hc
  · rename_i d s hdm hsm
    split_ifs at hc with hass
    split at hc
    · cases hc
    · rename_i d1 hrows
      cases hc
      intro r c hr hcw
      simp only [Plane.sample, hsm]
      have hcov : (bw : Int) ≤ dst.linesize ∨ dst.linesize ≤ -(bw : Int) := by
        unfold FFABS at hass
        omega
      exact copy_rows_sample bw dst.linesize sl s hcov _ d d1 _ _ hrows r c hr hcw
  · rename_i hnot
    cases hc
    cases hdm : dst.mem with
    | none => exact absurd hdm hd
    | some d =>
      cases hsm : src.mem with
      | none => exact absurd hsm hs
      | some s => exact absurd hsm (by intro _; exact hnot d s hdm hsm)

theorem plane_with_linesize (p : Plane) : ({ p with linesize := p.linesize } : Plane) = p := by
  cases p; rfl

theorem av_image_copy_color (dst pic : AVFrame) (i : vpx_image) (pf : AVPixelFormat)
    (hpf : pf ≠ AVPixelFormat.NONE)
    (hc : av_image_copy dst i pf i.width i.height = some pic)
    (h0 : pic.data0.present) (h1 : pic.data1.present) (h2 : pic.data2.present)
    (hY : i.planeY.present) (hU : i.planeU.present) (hV : i.planeV.present) :
    holds_color pic i := by
  by_cases hw : i.width < 0
  · have hcols : i.cols = 0 := by unfold vpx_image.cols; omega
    refine ⟨fun r c _ hcw => ?_, fun r c _ hcw => ?_⟩
    · rw [hcols] at hcw; omega
    · rw [hcols] at hcw; omega
  have l0 : av_image_get_linesize pf i.width 0 = i.width := by
    cases pf <;> simp [av_image_get_linesize, hw] at hpf ⊢
  have l1 : av_image_get_linesize pf i.width 1 = (i.width + 1) / 2 := by
    cases pf <;> simp [av_image_get_linesize, hw] at hpf ⊢
  have l2 : av_image_get_linesize pf i.width 2 = (i.width + 1) / 2 := by
    cases pf <;> simp [av_image_get_linesize, hw] at hpf ⊢
  unfold av_image_copy at hc
  split at hc
  · exact absurd rfl hpf
  · rw [l0, l1, l2, if_neg hw] at hc
    split at hc
    · rename_i p0 p1 p2 p3 e0 e1 e2 e3
      cases hc
      refine ⟨fun r c hr hcw => ?_, fun r c hr hcw => ⟨?_, ?_⟩⟩
      · have := av_image_copy_plane_sample _ _ _ _ _ _ e0 h0 hY r c hr hcw
        rw [this, plane_with_linesize]
      · have := av_image_copy_plane_sample _ _ _ _ _ _ e1 h1 hU r c
          (by unfold AV_CEIL_RSHIFT1; unfold vpx_image.rows at hr; omega)
          (by unfold vpx_image.cols at hcw; omega)
        rw [this, plane_with_linesize]
      · have := av_image_copy_plane_sample _ _ _ _ _ _ e2 h2 hV r c
          (by unfold AV_CEIL_RSHIFT1; unfold vpx_image.rows at hr; omega)
          (by unfold vpx_image.cols at hcw; omega)
        rw [this, plane_with_linesize]
    · cases hc

theorem feed_pull_check_pix_fmt (a : Bool) (host : Host) (f : Feed) (m : Machine) :
    (feed_pull_check a host f m).machine.avctx.pix_fmt = m.avctx.pix_fmt := by
  rcases feed_pull_check_cases a host f m with ⟨_, e⟩ | ⟨_, _, e⟩ |
    ⟨i, _, _, ⟨_, e⟩ | ⟨_, _, e⟩ | ⟨_, _, _, e⟩ | ⟨_, _, _, e⟩⟩ <;> rw [e] <;>
    simp [Stage.machine]

theorem alloc_copy_picture (host : Host) (avpkt : AVPacket) (img : vpx_image)
    (m m1 : Machine) (v : Int) (h : alloc_copy host avpkt img m = (Outcome.ret v, m1))
    (hv : 0 ≤ v) :
    ∃ frame, av_image_copy frame img m.avctx.pix_fmt img.width img.height = some m1.picture := by
  unfold alloc_copy at h
  simp only at h
  split_ifs at h with hg
  · cases h; exact absurd hv (not_le.mpr hg)
  · split at h
    · cases h
    · rename_i pic hp
      cases h
      exact ⟨_, hp⟩

theorem vp8_decode_picture (host : Host) (avpkt : AVPacket) (m m1 : Machine) (v : Int)
    (i : vpx_image) (h : vp8_decode host avpkt m = (Outcome.ret v, m1)) (hv : 0 ≤ v)
    (hi : color_image m avpkt = some i) :
    ∃ frame, av_image_copy frame i m.avctx.pix_fmt i.width i.height = some m1.picture := by
  unfold vp8_decode at h
  have hp := feed_pull_check_pix_fmt false host (color_feed avpkt) m
  cases hS : feed_pull_check false host (color_feed avpkt) m with
  | done r =>
    rw [hS] at h
    simp only at h
    obtain ⟨v1, hr, hneg⟩ := (feed_pull_check_done _ _ _ _ _ hS).1
    rw [h] at hr
    cases hr
    exact absurd hv (not_le.mpr hneg)
  | next img m2 =>
    rw [hS] at h hp
    obtain ⟨_, _, himg, _, _⟩ := feed_pull_check_next _ _ _ _ _ _ hS
    have himg2 : img = some i := by rw [himg]; exact hi
    subst himg2
    simp only at h
    simp only [Stage.machine] at hp
    rw [← hp]
    exact alloc_copy_picture host avpkt i m2 m1 v h hv

/-- The fill loop on a present plane with a non-zero line size whose block of rows fits
its buffer: it succeeds, every byte of the block becomes 0xFF and no other byte changes. -/
theorem fill_alpha_block (p : Plane) (b : Buffer) (rows : Nat) (hs : p.linesize ≠ 0)
    (hfit : p.fits b rows) :
    ∃ b1, fill_alpha p.linesize rows (some b) p.off = some (some b1) ∧ b1.size = b.size ∧
      ∀ x, b1.byte x =
        if p.block_start rows ≤ x ∧
            x < p.block_start rows + (rows : Int) * (FFABS p.linesize : Int) then 255
        else b.byte x := by
  obtain ⟨hlo, hhi⟩ := hfit
  unfold Plane.block_start at hlo hhi ⊢
  rcases lt_or_gt_of_ne hs with hneg | hpos
  · have habs : ((FFABS p.linesize : Nat) : Int) = -p.linesize := by unfold FFABS; omega
    rw [if_neg (by omega)] at hlo hhi ⊢
    rw [habs] at hhi ⊢
    have e : p.off + ((rows : Int) - 1) * p.linesize + (rows : Int) * -p.linesize =
        p.off - p.linesize := by ring
    rw [e] at hhi ⊢
    exact fill_alpha_neg p.linesize hneg rows b p.off (Or.inr ⟨hlo, hhi⟩)
  · have habs : ((FFABS p.linesize : Nat) : Int) = p.linesize := by unfold FFABS; omega
    rw [if_pos (by omega)] at hlo hhi ⊢
    rw [habs] at hhi ⊢
    exact fill_alpha_pos p.linesize hpos rows b p.off hlo hhi

/-- Every byte of every row lies in the block of the plane's rows. -/
theorem row_in_block (p : Plane) (rows r c : Nat) (hr : r < rows) (hc : c < FFABS p.linesize) :
    p.block_start rows ≤ p.off + (r : Int) * p.linesize + (c : Int) ∧
    p.off + (r : Int) * p.linesize + (c : Int) <
      p.block_start rows + (rows : Int) * (FFABS p.linesize : Int) := by
  unfold Plane.block_start
  unfold FFABS at hc ⊢
  by_cases hs : 0 ≤ p.linesize
  · rw [if_pos hs]
    have habs : ((p.linesize.natAbs : Nat) : Int) = p.linesize := by omega
    rw [habs]
    have h1 : 0 ≤ (r : Int) * p.linesize := mul_nonneg (by omega) hs
    have h2 : ((r : Int) + 1) * p.linesize ≤ (rows : Int) * p.linesize :=
      mul_le_mul_of_nonneg_right (by omega) hs
    have h3 : ((r : Int) + 1) * p.linesize = (r : Int) * p.linesize + p.linesize := by ring
    omega
  · rw [if_neg hs]
    have habs : ((p.linesize.natAbs : Nat) : Int) = -p.linesize := by omega
    rw [habs]
    have h1 : (r : Int) * p.linesize ≤ 0 :=
      mul_nonpos_of_nonneg_of_nonpos (by omega) (by omega)
    have h2 : ((rows : Int) - 1) * p.linesize ≤ (r : Int) * p.linesize :=
      mul_le_mul_of_nonpos_right (by omega) (by omega)
    have h3 : p.off + ((rows : Int) - 1) * p.linesize + (rows : Int) * -p.linesize =
        p.off - p.linesize := by ring
    omega

theorem rows_of_lt (i : vpx_image) (h : i.d_h < 2 ^ 31) : i.rows = i.d_h := by
  unfold vpx_image.rows vpx_image.height
  rw [int_cast_of_lt _ h]
  simp

theorem cols_of_lt (i : vpx_image) (h : i.d_w < 2 ^ 31) : i.cols = i.d_w := by
  unfold vpx_image.cols vpx_image.width
  rw [int_cast_of_lt _ h]
  simp

/-- C2. In `vp8alpha_decode` with no side payload (State A) on an alpha-enabled session,
whenever the colour decode succeeds and produces a frame, for every non-zero line size
(positive or negative) of output plane 3 whose block of `height` rows of `|linesize|`
bytes lies in its buffer: the call returns the packet size with the produced-frame flag
set; for every row `r < height` all `|linesize|` bytes of row `r` of plane 3 (starting at
`data[3] + r * linesize`) equal 0xFF; no byte outside that block is changed (every byte
written lies inside it); and planes 0-2 are exactly as the colour copy left them and
hold the colour image's samples.  Here `height` is the height of the frame and of the
session, which is `(int) d_h` of the colour image (`d_h` itself when below 2^31). -/
theorem state_a_alpha_plane_opaque (host : Host) (avpkt : AVPacket) (m m1 : Machine)
    (v : Int) (i : vpx_image) (b : Buffer)
    (hside : avpkt.side_data_elems = 0)
    (hpix : m.avctx.pix_fmt = AVPixelFormat.YUVA420P)
    (hdec : vp8_decode host avpkt m = (Outcome.ret v, m1)) (hv : 0 ≤ v)
    (hi : color_image m avpkt = some i)
    (hmem : m1.picture.data3.mem = some b)
    (hs : m1.picture.data3.linesize ≠ 0)
    (hfit : m1.picture.data3.fits b i.rows)
    (h0 : m1.picture.data0.present) (h1 : m1.picture.data1.present)
    (h2 : m1.picture.data2.present)
    (hY : i.planeY.present) (hU : i.planeU.present) (hV : i.planeV.present) :
    (vp8alpha_decode host avpkt m).1 = Outcome.ret avpkt.size ∧
    (vp8alpha_decode host avpkt m).2.got_frame = 1 ∧
    (vp8alpha_decode host avpkt m).2.picture.height = i.height ∧
    (∀ r c : Nat, r < i.rows → c < FFABS m1.picture.data3.linesize →
      (vp8alpha_decode host avpkt m).2.picture.data3.sample r c = 0xFF) ∧
    (∃ b1, (vp8alpha_decode host avpkt m).2.picture.data3 =
        { m1.picture.data3 with mem := some b1 } ∧ b1.size = b.size ∧
      ∀ x, (x < m1.picture.data3.block_start i.rows ∨
          m1.picture.data3.block_start i.rows +
            (i.rows : Int) * (FFABS m1.picture.data3.linesize : Int) ≤ x) →
        b1.byte x = b.byte x) ∧
    (vp8alpha_decode host avpkt m).2.picture.data0 = m1.picture.data0 ∧
    (vp8alpha_decode host avpkt m).2.picture.data1 = m1.picture.data1 ∧
    (vp8alpha_decode host avpkt m).2.picture.data2 = m1.picture.data2 ∧
    holds_color (vp8alpha_decode host avpkt m).2.picture i := by
  obtain ⟨_, hph, hgot, hh⟩ := vp8_decode_frame host avpkt m m1 v i hdec hv hi
  obtain ⟨frame, hcopy⟩ := vp8_decode_picture host avpkt m m1 v i hdec hv hi
  rw [hpix] at hcopy
  have hcol : holds_color m1.picture i :=
    av_image_copy_color frame m1.picture i _ (by decide) hcopy h0 h1 h2 hY hU hV
  obtain ⟨b1, hfill, hsz, hbyte⟩ := fill_alpha_block m1.picture.data3 b i.rows hs hfit
  have hrows : m1.avctx.height.toNat = i.rows := by rw [hh]; rfl
  have hr : vp8alpha_decode host avpkt m =
      (Outcome.ret avpkt.size,
       { m1 with picture :=
          { m1.picture with data3 := { m1.picture.data3 with mem := some b1 } } }) := by
    unfold vp8alpha_decode
    rw [if_pos hside, hdec]
    simp only
    rw [if_neg (not_lt.mpr hv), hrows, hmem, hfill]
  rw [hr]
  refine ⟨rfl, hgot, hph, ?_, ⟨b1, rfl, hsz, ?_⟩, rfl, rfl, rfl, hcol⟩
  · intro r c hrr hc
    simp only [Plane.sample]
    rw [hbyte, if_pos (row_in_block m1.picture.data3 i.rows r c hrr hc)]
  · intro x hx
    rw [hbyte, if_neg (by omega)]

/-- C2 at a concrete State A call on a host whose alpha plane has line size -2. -/
theorem state_a_alpha_plane_opaque_witness :
    (vp8alpha_decode host_flipped packet_plain
      (alpha_session (some color2x2) none)).1 = Outcome.ret 3 ∧
    (∀ r c : Nat, r < 2 → c < 2 →
      (vp8alpha_decode host_flipped packet_plain
        (alpha_session (some color2x2) none)).2.picture.data3.sample r c = 0xFF) ∧
    holds_color (vp8alpha_decode host_flipped packet_plain
      (alpha_session (some color2x2) none)).2.picture color2x2 :=
  have h := state_a_alpha_plane_opaque host_flipped packet_plain
    (alpha_session (some color2x2) none)
    (vp8_decode host_flipped packet_plain (alpha_session (some color2x2) none)).2
    3 color2x2 (Buffer.ofList [7, 7, 7, 7])
    (by decide) rfl (Prod.ext (by decide) rfl) (by decide) rfl rfl (by decide)
    ⟨by decide, by decide⟩
    (Option.some_ne_none _) (Option.some_ne_none _) (Option.some_ne_none _)
    (Option.some_ne_none _) (Option.some_ne_none _) (Option.some_ne_none _)
  ⟨h.1, h.2.2.2.1, h.2.2.2.2.2.2.2.2⟩

/-! ### Accepted packets and decode failures -/

theorem memcpy_some (dst src : Buffer) (dp sp : Int) (n : Nat)
    (hd : dst.holds dp n) (hs : src.holds sp n) :
    ∃ d1, memcpy dst dp src sp n = some d1 ∧ d1.size = dst.size := by
  unfold memcpy
  by_cases h0 : n = 0
  · rw [if_pos h0]; exact ⟨dst, rfl, rfl⟩
  · rw [if_neg h0]
    have h1 : dst.inb dp n := hd.resolve_left h0
    have h2 : src.inb sp n := hs.resolve_left h0
    rw [if_pos ⟨h1, h2⟩]
    exact ⟨_, rfl, rfl⟩

theorem holds_of_size (b b1 : Buffer) (p : Int) (n : Nat) (hsz : b1.size = b.size)
    (h : b.holds p n) : b1.holds p n := by
  unfold Buffer.holds Buffer.inb at h ⊢
  rw [hsz]; exact h

/-- The row loop performs no invalid access when every row it reads and writes can be
accessed. -/
theorem copy_rows_some (bw : Nat) (dl sl : Int) (src : Buffer) :
    ∀ (n : Nat) (d : Buffer) (dp sp : Int),
      rows_hold d dp dl bw n → rows_hold src sp sl bw n →
      ∃ d1, copy_rows bw dl sl src n d dp sp = some d1 ∧ d1.size = d.size := by
  intro n
  induction n with
  | zero => intro d dp sp _ _; exact ⟨d, rfl, rfl⟩
  | succ n ih =>
    intro d dp sp hd hs
    have hd0 := hd 0 (by omega)
    have hs0 := hs 0 (by omega)
    simp only [Nat.cast_zero, zero_mul, add_zero] at hd0 hs0
    obtain ⟨d2, hm, hsz2⟩ := memcpy_some d src dp sp bw hd0 hs0
    have hd1 : rows_hold d2 (dp + dl) dl bw n := by
      intro r hr
      have h := hd (r + 1) (by omega)
      have e : dp + ((r + 1 : Nat) : Int) * dl = dp + dl + (r : Int) * dl := by
        push_cast; ring
      rw [e] at h
      exact holds_of_size d d2 _ _ hsz2 h
    have hs1 : rows_hold src (sp + sl) sl bw n := by
      intro r hr
      have h := hs (r + 1) (by omega)
      have e : sp + ((r + 1 : Nat) : Int) * sl = sp + sl + (r : Int) * sl := by
        push_cast; ring
      rw [e] at h
      exact h
    obtain ⟨d1, hc, hsz1⟩ := ih d2 (dp + dl) (sp + sl) hd1 hs1
    refine ⟨d1, ?_, hsz1.trans hsz2⟩
    simp only [copy_rows, hm]
    exact hc

/-- A plane copy whose precondition holds succeeds and keeps the shape of the plane. -/
theorem av_image_copy_plane_some (dst src : Plane) (sl : Int) (bw : Nat) (h : Int)
    (hok : copy_ok dst src sl bw h.toNat) :
    ∃ p1, av_image_copy_plane dst src sl bw h = some p1 ∧ p1.same_shape dst := by
  unfold copy_ok at hok
  unfold av_image_copy_plane
  cases hd : dst.mem with
  | none => exact ⟨dst, rfl, rfl, rfl, rfl⟩
  | some d =>
    cases hs : src.mem with
    | none => exact ⟨dst, rfl, rfl, rfl, rfl⟩
    | some s =>
      rw [hd, hs] at hok
      obtain ⟨h1, h2, h3, h4⟩ := hok
      simp only
      rw [if_neg (by omega)]
      obtain ⟨d1, hc, hsz⟩ := copy_rows_some bw dst.linesize sl s h.toNat d dst.off src.off h3 h4
      rw [hc]
      refine ⟨_, rfl, rfl, rfl, ?_⟩
      simp [hd, hsz]

theorem copy_ok_shape (p q src : Plane) (sl : Int) (bw rows : Nat) (hs : p.same_shape q)
    (h : copy_ok q src sl bw rows) : copy_ok p src sl bw rows := by
  obtain ⟨ho, hl, hm⟩ := hs
  unfold copy_ok at h ⊢
  rw [ho, hl]
  cases hp : p.mem with
  | none => trivial
  | some d =>
    cases hq : q.mem with
    | none => rw [hp, hq] at hm; simp at hm
    | some e =>
      rw [hp, hq] at hm
      simp only [Option.map_some', Option.some.injEq] at hm
      rw [hq] at h
      cases hsrc : src.mem with
      | none => trivial
      | some s =>
        rw [hsrc] at h
        obtain ⟨h1, h2, h3, h4⟩ := h
        exact ⟨h1, h2, fun r hr => holds_of_size e d _ _ hm (h3 r hr), h4⟩

/-- A whole-image copy into an adequate frame succeeds and keeps the shape of plane 3. -/
theorem av_image_copy_some (pf : AVPixelFormat) (f : AVFrame) (i : vpx_image)
    (had : frame_adequate pf f i) :
    ∃ pic, av_image_copy f i pf i.width i.height = some pic ∧
      pic.data3.same_shape f.data3 := by
  obtain ⟨a0, a1, a2, a3⟩ := had
  obtain ⟨p0, e0, _⟩ := av_image_copy_plane_some _ _ _ _ _ a0
  obtain ⟨p1, e1, _⟩ := av_image_copy_plane_some _ _ _ _ _ a1
  obtain ⟨p2, e2, _⟩ := av_image_copy_plane_some _ _ _ _ _ a2
  obtain ⟨p3, e3, s3⟩ := av_image_copy_plane_some _ _ _ _ _ a3
  unfold av_image_copy
  cases pf with
  | NONE => exact ⟨f, rfl, rfl, rfl, rfl⟩
  | YUV420P =>
    simp only
    by_cases hw : av_image_get_linesize AVPixelFormat.YUV420P i.width 0 < 0
    · rw [if_pos hw]; exact ⟨f, rfl, rfl, rfl, rfl⟩
    · rw [if_neg hw, e0, e1, e2, if_neg (by decide)]
      exact ⟨_, rfl, rfl, rfl, rfl⟩
  | YUVA420P =>
    simp only
    by_cases hw : av_image_get_linesize AVPixelFormat.YUVA420P i.width 0 < 0
    · rw [if_pos hw]; exact ⟨f, rfl, rfl, rfl, rfl⟩
    · rw [if_neg hw, e0, e1, e2, if_pos trivial, e3]
      exact ⟨_, rfl, s3⟩

theorem fill_alpha_zero : ∀ (n : Nat) (mem : Option Buffer) (p : Int),
    fill_alpha 0 n mem p = some mem := by
  intro n
  induction n with
  | zero => intro mem p; rfl
  | succ n ih =>
    intro mem p
    cases mem with
    | none =>
      simp only [fill_alpha, FFABS, Int.natAbs_zero, if_true]
      exact ih none _
    | some b =>
      have hm : memset b p 255 (FFABS 0) = some b := by simp [memset, FFABS]
      simp only [fill_alpha, hm]
      exact ih (some b) _

/-- The fill loop performs no invalid access when its precondition holds. -/
theorem fill_alpha_some (p : Plane) (rows : Nat) (h : fill_ok p rows) :
    ∃ mem, fill_alpha p.linesize rows p.mem p.off = some mem := by
  unfold fill_ok at h
  by_cases h0 : rows = 0
  · subst h0; exact ⟨_, rfl⟩
  by_cases hl : p.linesize = 0
  · rw [hl]; exact ⟨_, fill_alpha_zero rows p.mem p.off⟩
  cases hm : p.mem with
  | none =>
    rw [hm] at h
    rcases h with h | h
    · exact absurd h h0
    · exact absurd h hl
  | some b =>
    rw [hm] at h
    rcases h with h | h | h
    · exact absurd h h0
    · exact absurd h hl
    · obtain ⟨b1, hb1, _⟩ := fill_alpha_block p b rows hl h
      exact ⟨_, hb1⟩

theorem fill_ok_shape (p q : Plane) (rows : Nat) (hs : p.same_shape q)
    (h : fill_ok q rows) : fill_ok p rows := by
  obtain ⟨ho, hl, hm⟩ := hs
  have hb : p.block_start rows = q.block_start rows := by
    unfold Plane.block_start; rw [ho, hl]
  unfold fill_ok at h ⊢
  cases hp : p.mem with
  | none =>
    cases hq : q.mem with
    | none =>
      rw [hq] at h
      unfold fill_ok_mem at h ⊢
      rw [hl]; exact h
    | some e => rw [hp, hq] at hm; simp at hm
  | some d =>
    cases hq : q.mem with
    | none => rw [hp, hq] at hm; simp at hm
    | some e =>
      rw [hp, hq] at hm
      simp only [Option.map_some', Option.some.injEq] at hm
      rw [hq] at h
      unfold fill_ok_mem at h ⊢
      simp only at h ⊢
      rw [hl, hb, hm]; exact h

theorem feed_pull_check_yields (a : Bool) (host : Host) (f : Feed) (m : Machine)
    (i : vpx_image) (hlive : (m.engine a).live = true) (hy : yields (m.engine a) f i)
    (hs : differs i m → 0 ≤ host.set_dimensions i.width i.height) :
    ∃ m1, feed_pull_check a host f m = Stage.next (some i) m1 := by
  obtain ⟨hok, hi, hf⟩ := hy
  have h1 : (vpx_codec_decode (m.engine a) f).1 = true := by
    simp [vpx_codec_decode, hlive, hok]
  have h2 : vpx_codec_get_frame (vpx_codec_decode (m.engine a) f).2 = some i := by
    simpa [vpx_codec_decode, vpx_codec_get_frame] using hi
  rcases feed_pull_check_cases a host f m with ⟨c, _⟩ | ⟨_, c, _⟩ |
    ⟨j, _, hj, ⟨c, _⟩ | ⟨_, _, e⟩ | ⟨_, hd, c, _⟩ | ⟨_, _, _, e⟩⟩
  · rw [h1] at c; cases c
  · rw [h2] at c; cases c
  · rw [h2] at hj; cases hj; exact absurd hf c
  · rw [h2] at hj; cases hj; exact ⟨_, e⟩
  · rw [h2] at hj; cases hj; exact absurd (hs hd) (not_le.mpr c)
  · rw [h2] at hj; cases hj; exact ⟨_, e⟩

/-- Allocation and copy into an adequate frame: the call returns the packet size, sets
the flag, keeps the context, and plane 3 has the shape the host gave it. -/
theorem alloc_copy_adequate (host : Host) (avpkt : AVPacket) (img : vpx_image) (m : Machine)
    (hg : 0 ≤ (host.get_buffer m.avctx.width m.avctx.height).1)
    (hw : m.avctx.width = img.width) (hh : m.avctx.height = img.height)
    (had : frame_adequate m.avctx.pix_fmt (host.get_buffer img.width img.height).2 img) :
    (alloc_copy host avpkt img m).1 = Outcome.ret avpkt.size ∧
    (alloc_copy host avpkt img m).2.got_frame = 1 ∧
    (alloc_copy host avpkt img m).2.avctx = m.avctx ∧
    (alloc_copy host avpkt img m).2.picture.data3.same_shape
      (host.get_buffer img.width img.height).2.data3 := by
  have hg2 : ¬ (ff_get_buffer host m).1 < 0 := not_lt.mpr hg
  have hpic : (ff_get_buffer host m).2.picture =
      { (host.get_buffer img.width img.height).2 with
        width := m.avctx.width, height := m.avctx.height } := by
    unfold ff_get_buffer
    simp only
    rw [if_neg (not_lt.mpr hg), hw, hh]
  have had2 : frame_adequate m.avctx.pix_fmt (ff_get_buffer host m).2.picture img := by
    rw [hpic]; exact had
  obtain ⟨pic, hc, hs⟩ := av_image_copy_some _ _ _ had2
  unfold alloc_copy
  simp only
  rw [if_neg hg2]
  have hc2 : av_image_copy ((ff_get_buffer host m).2.log
      (Event.image_copy img.width img.height)).picture img
      ((ff_get_buffer host m).2.log (Event.image_copy img.width img.height)).avctx.pix_fmt
      img.width img.height = some pic := hc
  rw [hc2]
  refine ⟨rfl, rfl, rfl, ?_⟩
  rw [hpic] at hs
  exact hs

/-- State B composition into an adequate frame from two present images. -/
theorem composite_adequate (host : Host) (avpkt : AVPacket) (i a : vpx_image) (m : Machine)
    (hg : 0 ≤ (host.get_buffer m.avctx.width m.avctx.height).1)
    (hw : m.avctx.width = i.width) (hh : m.avctx.height = i.height)
    (had : frame_adequate m.avctx.pix_fmt (host.get_buffer i.width i.height).2 i)
    (hpos : 0 ≤ i.width)
    (hcp : copy_ok (host.get_buffer i.width i.height).2.data3 a.planeY i.planeY.linesize
      i.cols i.rows) :
    (composite host avpkt (some i) (some a) m).1 = Outcome.ret avpkt.size ∧
    (composite host avpkt (some i) (some a) m).2.got_frame = 1 := by
  have hg2 : ¬ (ff_get_buffer host m).1 < 0 := not_lt.mpr hg
  have hpic : (ff_get_buffer host m).2.picture =
      { (host.get_buffer i.width i.height).2 with
        width := m.avctx.width, height := m.avctx.height } := by
    unfold ff_get_buffer
    simp only
    rw [if_neg (not_lt.mpr hg), hw, hh]
  have had2 : frame_adequate m.avctx.pix_fmt (ff_get_buffer host m).2.picture i := by
    rw [hpic]; exact had
  obtain ⟨pic, hc, hs⟩ := av_image_copy_some _ _ _ had2
  rw [hpic] at hs
  have hbw : av_image_get_linesize AVPixelFormat.YUVA420P i.width 3 = i.width := by
    simp [av_image_get_linesize, not_lt.mpr hpos]
  have hcp2 : copy_ok pic.data3 a.planeY i.planeY.linesize i.width.toNat i.height.toNat :=
    copy_ok_shape _ _ _ _ _ _ hs hcp
  obtain ⟨p3, hp3, _⟩ := av_image_copy_plane_some _ _ _ _ i.height hcp2
  unfold composite
  simp only
  rw [if_neg hg2]
  have hc2 : av_image_copy ((ff_get_buffer host m).2.log
      (Event.image_copy i.width i.height)).picture i
      ((ff_get_buffer host m).2.log (Event.image_copy i.width i.height)).avctx.pix_fmt
      i.width i.height = some pic := hc
  rw [hc2]
  simp only [hbw]
  rw [if_neg (not_lt.mpr hpos)]
  have hp4 : av_image_copy_plane
      (({ (ff_get_buffer host m).2.log (Event.image_copy i.width i.height) with
          picture := pic } : Machine).log
        (Event.image_copy_plane i.width i.height)).picture.data3
      a.planeY i.planeY.linesize i.width.toNat i.height = some p3 := hp3
  rw [hp4]
  exact ⟨rfl, rfl⟩

/-- An accepted packet is decoded by a session whose engines are alive: the call returns
the packet size and sets the produced-frame flag. -/
theorem decode_accepted (alpha : Bool) (host : Host) (avpkt : AVPacket) (m : Machine)
    (i a : vpx_image)
    (hlive : (m.engine false).live = true ∧ (alpha = true → (m.engine true).live = true))
    (hacc : accepted alpha host avpkt m i a) :
    (decode_fn alpha host avpkt m).1 = Outcome.ret avpkt.size ∧
    (decode_fn alpha host avpkt m).2.got_frame = 1 := by
  obtain ⟨hy, hs, hg, had, hal⟩ := hacc
  obtain ⟨m1, hS⟩ :=
    feed_pull_check_yields false host (color_feed avpkt) m i hlive.1 hy (fun _ => hs)
  obtain ⟨_, _, _, hd, _⟩ := feed_pull_check_next _ _ _ _ _ _ hS
  obtain ⟨_, hw, hh⟩ := hd i rfl
  have hpf := feed_pull_check_pix_fmt false host (color_feed avpkt) m
  rw [hS] at hpf
  simp only [Stage.machine] at hpf
  have hg1 : 0 ≤ (host.get_buffer m1.avctx.width m1.avctx.height).1 := by
    rw [hw, hh]; exact hg
  have had1 : frame_adequate m1.avctx.pix_fmt (host.get_buffer i.width i.height).2 i := by
    rw [hpf]; exact had
  have hplain : vp8_decode host avpkt m = alloc_copy host avpkt i m1 := by
    unfold vp8_decode
    rw [hS]
  obtain ⟨r1, r2, r3, r4⟩ := alloc_copy_adequate host avpkt i m1 hg1 hw hh had1
  cases alpha with
  | false =>
    simp only [decode_fn]
    rw [hplain]
    exact ⟨r1, r2⟩
  | true =>
    obtain ⟨hA, hB⟩ := hal rfl
    simp only [decode_fn, if_true]
    unfold vp8alpha_decode
    by_cases hside : avpkt.side_data_elems = 0
    · rw [if_pos hside, hplain, r1]
      have hsz : ¬ avpkt.size < 0 := by simp [AVPacket.size]
      simp only [if_neg hsz]
      have hrows : (alloc_copy host avpkt i m1).2.avctx.height.toNat = i.rows := by
        rw [r3, hh]; rfl
      have hfill : fill_ok (alloc_copy host avpkt i m1).2.picture.data3 i.rows :=
        fill_ok_shape _ _ _ r4 (hA hside)
      obtain ⟨mem, hmem⟩ := fill_alpha_some _ _ hfill
      rw [hrows, hmem]
      exact ⟨rfl, r2⟩
    · rw [if_neg hside, hS]
      simp only
      obtain ⟨hya, haw, hah, hpos, hcp⟩ := hB hside
      have hoth := feed_pull_check_other false true host (color_feed avpkt) m (by decide)
      rw [hS] at hoth
      simp only [Stage.machine] at hoth
      have hl2 : (m1.engine true).live = true := by rw [hoth]; exact hlive.2 rfl
      have hy2 : yields (m1.engine true) (alpha_feed avpkt) a := by rw [hoth]; exact hya
      have hnd : ¬ differs a m1 := by
        unfold differs
        rw [hw, hh, haw, hah]
        simp
      obtain ⟨m2, hT⟩ := feed_pull_check_yields true host (alpha_feed avpkt) m1 a hl2 hy2
        (fun hd2 => absurd hd2 hnd)
      obtain ⟨_, _, _, hd2, _⟩ := feed_pull_check_next _ _ _ _ _ _ hT
      obtain ⟨_, hw2, hh2⟩ := hd2 a rfl
      have hpf2 := feed_pull_check_pix_fmt true host (alpha_feed avpkt) m1
      rw [hT] at hpf2
      simp only [Stage.machine] at hpf2
      rw [hT]
      simp only
      exact composite_adequate host avpkt i a m2
        (by rw [hw2, hh2, haw, hah]; exact hg) (hw2.trans haw) (hh2.trans hah)
        (by rw [hpf2, hpf]; exact had) hpos hcp

/-- C4 as stated fails: on the plain codec, after a call in which the colour engine
rejects the packet (the call returns `AVERROR_INVALIDDATA`), the next packet is accepted
by the engine, which yields no image for it; the call returns the packet size and the
produced-frame flag stays unset. -/
theorem accepted_packet_without_frame :
    (vp8_decode host_ok packet_plain
      (session 2 2 AVPixelFormat.YUV420P engine_failing_then_silent no_engine)).1 =
        Outcome.ret AVERROR_INVALIDDATA ∧
    new_events
      (vp8_decode host_ok packet_plain
        (session 2 2 AVPixelFormat.YUV420P engine_failing_then_silent no_engine)).2
      (vp8_decode host_ok packet_plain
        (vp8_decode host_ok packet_plain
          (session 2 2 AVPixelFormat.YUV420P engine_failing_then_silent no_engine)).2) =
      [Event.decode false (color_feed packet_plain) true, Event.get_frame false none] ∧
    (vp8_decode host_ok packet_plain
      (vp8_decode host_ok packet_plain
        (session 2 2 AVPixelFormat.YUV420P engine_failing_then_silent no_engine)).2).1 =
        Outcome.ret 3 ∧
    (vp8_decode host_ok packet_plain
      (vp8_decode host_ok packet_plain
        (session 2 2 AVPixelFormat.YUV420P engine_failing_then_silent no_engine)).2).2.got_frame
        = 0 := by
  decide

/-- C4, amended. For both `vp8_decode` and `vp8alpha_decode` (States A and B): when during
the call an engine rejects its feed or a pulled image has a pixel format other than I420,
the call returns the negative `AVERROR_INVALIDDATA`, leaves the produced-frame flag and
the caller's frame as they were, never calls `ff_get_buffer`, copies nothing and destroys
no engine (both stay as alive as before); and the session it leaves behind decodes every
later packet with the packet size returned and the produced-frame flag set, whenever for
that packet the engines accept their feeds and yield I420 images (in State B of one
common size, of non-negative width), the host grants the dimension-change request and
the allocation, and the frame and the images hold the rows that are copied or filled. -/
theorem decode_failure_is_clean (alpha : Bool) (host : Host) (avpkt : AVPacket) (m : Machine)
    (hlive : (m.engine false).live = true ∧ (alpha = true → (m.engine true).live = true))
    (hfail : ∃ e ∈ new_events m (decode_fn alpha host avpkt m), e.is_failure = true) :
    (decode_fn alpha host avpkt m).1 = Outcome.ret AVERROR_INVALIDDATA ∧
    AVERROR_INVALIDDATA < 0 ∧
    (decode_fn alpha host avpkt m).2.got_frame = m.got_frame ∧
    (decode_fn alpha host avpkt m).2.picture = m.picture ∧
    (∀ e ∈ new_events m (decode_fn alpha host avpkt m),
      e.is_get_buffer = false ∧ e.is_destroy = false ∧ e.is_copy = false) ∧
    (∀ b, ((decode_fn alpha host avpkt m).2.engine b).live = (m.engine b).live) ∧
    ∀ host1 avpkt1 i a, accepted alpha host1 avpkt1 (decode_fn alpha host avpkt m).2 i a →
      (decode_fn alpha host1 avpkt1 (decode_fn alpha host avpkt m).2).1 =
        Outcome.ret avpkt1.size ∧
      (decode_fn alpha host1 avpkt1 (decode_fn alpha host avpkt m).2).2.got_frame = 1 := by
  have hcases : ((decode_fn alpha host avpkt m).1 = Outcome.ret AVERROR_INVALIDDATA ∧
      kept m (decode_fn alpha host avpkt m).2) ∨
      ext Event.is_benign m (decode_fn alpha host avpkt m).2 := by
    cases alpha
    · exact vp8_decode_clean_or_benign host avpkt m
    · exact vp8alpha_decode_clean_or_benign host avpkt m
  rcases hcases with ⟨hret, hgot, hpic, hlv, hq⟩ | hb
  · refine ⟨hret, by decide, hgot, hpic, ?_, hlv, ?_⟩
    · intro e he
      have h3 := ext_new_events hq e he
      simp only [Event.is_quiet, Bool.and_eq_true, Bool.not_eq_true'] at h3
      exact ⟨h3.1.1, h3.1.2, h3.2⟩
    · intro host1 avpkt1 i a hacc
      refine decode_accepted alpha host1 avpkt1 _ i a ⟨?_, ?_⟩ hacc
      · rw [hlv]; exact hlive.1
      · intro ha; rw [hlv]; exact hlive.2 ha
  · obtain ⟨e, he, hf⟩ := hfail
    have := ext_new_events hb e he
    simp [Event.is_benign, hf] at this

/-- C4, amended, at a concrete State B call: the colour engine rejects the first packet,
and the same packet sent again is decoded into a frame. -/
theorem decode_failure_is_clean_witness :
    (decode_fn true host_ok packet_with_alpha
      (session 2 2 AVPixelFormat.YUVA420P (engine_failing_once color2x2)
        (engine_yielding (some alpha2x2)))).1 = Outcome.ret AVERROR_INVALIDDATA ∧
    (decode_fn true host_ok packet_with_alpha
      (decode_fn true host_ok packet_with_alpha
        (session 2 2 AVPixelFormat.YUVA420P (engine_failing_once color2x2)
          (engine_yielding (some alpha2x2)))).2).2.got_frame = 1 :=
  have h := decode_failure_is_clean true host_ok packet_with_alpha
    (session 2 2 AVPixelFormat.YUVA420P (engine_failing_once color2x2)
      (engine_yielding (some alpha2x2)))
    ⟨by decide, fun _ => by decide⟩
    ⟨Event.decode false (color_feed packet_with_alpha) false, by decide, by decide⟩
  ⟨h.1, (h.2.2.2.2.2.2 host_ok packet_with_alpha color2x2 alpha2x2
    ⟨⟨by decide, rfl, by decide⟩, by decide, by decide, by decide,
     fun _ => ⟨fun h0 => absurd h0 (by decide),
       fun _ => ⟨⟨by decide, rfl, by decide⟩, by decide, by decide, by decide,
         by decide⟩⟩⟩).2⟩

end LibVpxDec
